import Mathlib

/-!
Verification development for the hardware identity resolution and benchmark
aggregation engine of the weird-bench-site backend.

Python strings are modelled as `List Char` (`Str`); Python JSON-like values as
the inductive type `JVal`; code that can raise is modelled in `Except PyErr`.
Character classes used by the regular expressions of the source are modelled
over the ASCII range (the source only ever matches ASCII hardware-name
tokens).  Each definition mirrors one Python function of the backend and is
named after it.
-/

namespace WeirdBench

/-- Python strings, modelled as lists of characters. -/
abbrev Str := List Char

/-- Coerce a Lean string literal to the model type. -/
def lit (s : String) : Str := s.data

/-- ASCII whitespace, the characters stripped and split by Python
`str.strip` / `str.split` (space, tab, newline, vertical tab, form feed,
carriage return). -/
def isWsChar (c : Char) : Bool := c.toNat = 32 || (9 ≤ c.toNat && c.toNat ≤ 13)

/-- ASCII decimal digit, model of the regex class `\d` and `str.isdigit`. -/
def isDigitChar (c : Char) : Bool := 48 ≤ c.toNat && c.toNat ≤ 57

/-- ASCII lowercase letter. -/
def isLowerChar (c : Char) : Bool := 97 ≤ c.toNat && c.toNat ≤ 122

/-- ASCII uppercase letter. -/
def isUpperChar (c : Char) : Bool := 65 ≤ c.toNat && c.toNat ≤ 90

/-- ASCII letter. -/
def isAlphaChar (c : Char) : Bool := isLowerChar c || isUpperChar c

/-- Word character, model of the regex class `\w`: letters, digits and
underscore. -/
def isWordChar (c : Char) : Bool := isAlphaChar c || isDigitChar c || c.toNat = 95

/-- Lowercase alphanumeric character, the class kept by the slug regex
`[^a-z0-9]+`. -/
def isLowerAlnum (c : Char) : Bool := isLowerChar c || isDigitChar c

/-- Model of Python `str.lower` on one character (ASCII case folding). -/
def pyToLower (c : Char) : Char :=
  if 65 ≤ c.toNat ∧ c.toNat ≤ 90 then Char.ofNat (c.toNat + 32) else c

/-- Model of Python `str.lower`. -/
def pyLower (s : Str) : Str := s.map pyToLower

/-- Drop the trailing run of characters satisfying `p`. -/
def dropTrailing (p : Char → Bool) (s : Str) : Str :=
  (s.reverse.dropWhile p).reverse

/-- Model of Python `str.strip()` (whitespace at both ends). -/
def pyStrip (s : Str) : Str := dropTrailing isWsChar (s.dropWhile isWsChar)

/-- Model of Python `str.strip(c)` for a single character argument. -/
def pyStripChar (c : Char) (s : Str) : Str :=
  dropTrailing (· == c) (s.dropWhile (· == c))

/-- Substring test, model of Python `needle in hay` on strings. -/
def isSub (needle : Str) : Str → Bool
  | [] => needle.isPrefixOf []
  | c :: rest => needle.isPrefixOf (c :: rest) || isSub needle rest

/-- Model of Python `str.startswith`. -/
def pyStartsWith (pre s : Str) : Bool := pre.isPrefixOf s

/-- Model of Python `str.split(sep)` for a one-character separator: splits at
every occurrence, keeping empty pieces. -/
def pySplitOn (sep : Char) : Str → List Str
  | [] => [[]]
  | c :: rest =>
    let r := pySplitOn sep rest
    if c == sep then [] :: r
    else
      match r with
      | [] => [[c]]
      | piece :: more => (c :: piece) :: more

/-- Model of Python `str.split()` with no argument: splits on whitespace runs
and drops empty pieces. -/
def pySplitWs : Str → List Str
  | [] => []
  | c :: rest =>
    if isWsChar c then pySplitWs rest
    else
      match pySplitWs rest with
      | [] => [[c]]
      | piece :: more =>
        match rest with
        | [] => [[c]]
        | d :: _ => if isWsChar d then [c] :: piece :: more else (c :: piece) :: more

/-- Model of Python `' '.join(pieces)`. -/
def joinSpace : List Str → Str
  | [] => []
  | [p] => p
  | p :: q :: more => p ++ ' ' :: joinSpace (q :: more)

/-- Replacement of every maximal run of characters satisfying `p` by the single
character `rep`; the accumulator records whether the previous character was
inside such a run.  Models `re.sub(r"X+", rep, s)` for a character class `X`. -/
def subRunsAux (p : Char → Bool) (rep : Char) : Str → Bool → Str
  | [], _ => []
  | c :: rest, inRun =>
    if p c then
      if inRun then subRunsAux p rep rest true
      else rep :: subRunsAux p rep rest true
    else c :: subRunsAux p rep rest false

/-- Replace every maximal run of characters satisfying `p` by `rep`. -/
def subRuns (p : Char → Bool) (rep : Char) (s : Str) : Str := subRunsAux p rep s false

/-- Deletion of every character satisfying `p`, model of
`re.sub(r"[X]", '', s)` for a character class `X`. -/
def delChars (p : Char → Bool) (s : Str) : Str := s.filter (fun c => !(p c))

/-! ## Slug functions -/

/-- Model of `slugify` from `simplified_storage_manager.py`: empty input maps
to `"unknown"`, otherwise strip, lowercase, collapse runs of characters
outside `[a-z0-9]` to a single `-`, collapse `-` runs, strip `-`, and map an
empty result to `"unknown"`. -/
def slugify (name : Str) : Str :=
  if name.isEmpty then lit "unknown"
  else
    let s := pyLower (pyStrip name)
    let s := subRuns (fun c => !(isLowerAlnum c)) '-' s
    let s := pyStripChar '-' (subRuns (· == '-') '-' s)
    if s.isEmpty then lit "unknown" else s

/-- Model of `HardwareExtractor._generate_hardware_id` (string argument case):
lowercase, delete characters outside `[\w\s-]`, collapse runs of `[-\s]` to a
single `-`, strip `-`.  The non-string argument case of the source returns the
constant `"unknown-hardware"` and is not modelled separately. -/
def generateHardwareId (hardwareName : Str) : Str :=
  let hid := delChars (fun c => !(isWordChar c || isWsChar c || c == '-')) (pyLower hardwareName)
  let hid := subRuns (fun c => c == '-' || isWsChar c) '-' hid
  pyStripChar '-' hid

/-! ## JSON-like Python values -/

/-- JSON-like Python values handled by the extraction and aggregation code.
`nan` models a float NaN (a numeric value with no rational counterpart). -/
inductive JVal where
  | null
  | bool (b : Bool)
  | num (q : ℚ)
  | nan
  | str (s : Str)
  | arr (xs : List JVal)
  | obj (kvs : List (String × JVal))

/-- Errors raised by the modelled Python code. -/
inductive PyErr where
  | keyError (k : String)
  | attributeError
  | typeError
  | indexError
  | valueError
  deriving Repr, DecidableEq

/-- Python truthiness of a JSON-like value. -/
def JVal.truthy : JVal → Bool
  | .null => false
  | .bool b => b
  | .num q => q ≠ 0
  | .nan => true
  | .str s => !s.isEmpty
  | .arr xs => !xs.isEmpty
  | .obj kvs => !kvs.isEmpty

/-- First binding of key `k` in an association list (Python dicts keep one
binding per key; the model keeps the first). -/
def lookupKey (kvs : List (String × JVal)) (k : String) : Option JVal :=
  match kvs with
  | [] => none
  | (k', v) :: rest => if k' = k then some v else lookupKey rest k

/-- Model of Python `d.get(k, default)` on a dict; raises `AttributeError`
when the receiver is not a dict. -/
def pyGetD (v : JVal) (k : String) (dflt : JVal) : Except PyErr JVal :=
  match v with
  | .obj kvs => .ok ((lookupKey kvs k).getD dflt)
  | _ => .error .attributeError

/-- Model of Python `d.get(k)` on a dict (default `None`). -/
def pyGet (v : JVal) (k : String) : Except PyErr JVal := pyGetD v k .null

/-- Model of Python `d[k]` on a dict: raises `KeyError` when the key is
absent and `TypeError` when the receiver is not a dict. -/
def pySub (v : JVal) (k : String) : Except PyErr JVal :=
  match v with
  | .obj kvs =>
    match lookupKey kvs k with
    | some w => .ok w
    | none => .error (.keyError k)
  | _ => .error .typeError

mutual

/-- Model of Python `==` between JSON-like values (`True == 1` holds, so
booleans compare as the numbers 0 and 1; `nan` compares unequal to
everything, itself included, through the catch-all case). -/
def pyEq : JVal → JVal → Bool
  | .null, .null => true
  | .bool a, .bool b => a == b
  | .bool a, .num q => (if a then (1 : ℚ) else 0) == q
  | .num q, .bool b => q == (if b then (1 : ℚ) else 0)
  | .num a, .num b => a == b
  | .str a, .str b => a == b
  | .arr a, .arr b => pyEqArr a b
  | .obj a, .obj b => a.length == b.length && pyEqObjAll a b
  | _, _ => false

/-- Elementwise Python `==` on lists. -/
def pyEqArr : List JVal → List JVal → Bool
  | [], [] => true
  | x :: xs, y :: ys => pyEq x y && pyEqArr xs ys
  | _, _ => false

/-- Every binding of the first dict compares equal to the corresponding
binding of the second. -/
def pyEqObjAll : List (String × JVal) → List (String × JVal) → Bool
  | [], _ => true
  | (k, v) :: rest, b =>
    (match lookupKey b k with
     | some w => pyEq v w
     | none => false) && pyEqObjAll rest b

end

/-- Model of Python `x in v`: key membership for dicts, element equality for
lists, substring test for strings, `TypeError` otherwise. -/
def pyIn (x : JVal) (v : JVal) : Except PyErr Bool :=
  match v with
  | .obj kvs =>
    match x with
    | .str s => .ok ((lookupKey kvs (String.mk s)).isSome)
    | _ => .ok false
  | .arr xs => .ok (xs.any (fun y => pyEq x y))
  | .str s =>
    match x with
    | .str n => .ok (isSub n s)
    | _ => .error .typeError
  | _ => .error .typeError

/-- Model of `isinstance(v, str)`. -/
def JVal.isStr : JVal → Bool
  | .str _ => true
  | _ => false

/-- Model of `isinstance(v, dict)`. -/
def JVal.isObj : JVal → Bool
  | .obj _ => true
  | _ => false

/-- Model of `isinstance(v, (int, float))`: numbers, NaN and booleans
(Python `bool` subclasses `int`). -/
def JVal.isNumLike : JVal → Bool
  | .num _ => true
  | .nan => true
  | .bool _ => true
  | _ => false

/-- Numeric value of a number-like `JVal` (`True` counts as 1, `False` as 0);
`none` for NaN and everything non-numeric. -/
def JVal.asNum : JVal → Option ℚ
  | .num q => some q
  | .bool b => some (if b then 1 else 0)
  | _ => none

/-- Model of Python `for x in v`: lists yield elements, strings yield
one-character strings, dicts yield their keys, everything else raises
`TypeError`. -/
def pyIter (v : JVal) : Except PyErr (List JVal) :=
  match v with
  | .arr xs => .ok xs
  | .str s => .ok (s.map (fun c => JVal.str [c]))
  | .obj kvs => .ok (kvs.map (fun p => JVal.str p.1.data))
  | _ => .error .typeError

/-- Model of Python `len(v)`. -/
def pyLen (v : JVal) : Except PyErr ℕ :=
  match v with
  | .arr xs => .ok xs.length
  | .str s => .ok s.length
  | .obj kvs => .ok kvs.length
  | _ => .error .typeError

/-- Model of Python `v[i]` for a non-negative integer index. -/
def pyIndex (v : JVal) (i : ℕ) : Except PyErr JVal :=
  match v with
  | .arr xs =>
    match xs.get? i with
    | some x => .ok x
    | none => .error .indexError
  | .str s =>
    match s.get? i with
    | some c => .ok (.str [c])
    | none => .error .indexError
  | _ => .error .typeError

/-- Model of Python `str(v)`.  Integer numbers render exactly; the remaining
representations (floats, containers) are placeholders, none of which is
consumed by the modelled control flow. -/
def pyStr (v : JVal) : Str :=
  match v with
  | .str s => s
  | .null => lit "None"
  | .bool b => if b then lit "True" else lit "False"
  | .num q => if q.den = 1 then lit (toString q.num) else lit (toString q)
  | .nan => lit "nan"
  | .arr _ => lit "list"
  | .obj _ => lit "dict"

/-- Model of Python `int(v)`: truncation toward zero for numbers, 0/1 for
booleans, digit-only parsing for strings (signs and padding are outside the
model), errors otherwise. -/
def pyToInt (v : JVal) : Except PyErr ℤ :=
  match v with
  | .num q => .ok (if q < 0 then ⌈q⌉ else ⌊q⌋)
  | .bool b => .ok (if b then 1 else 0)
  | .str s =>
    if !s.isEmpty && s.all isDigitChar then
      .ok (s.foldl (fun acc c => acc * 10 + (c.toNat - 48)) 0 : ℕ)
    else .error .valueError
  | _ => .error .valueError

/-- Model of Python `v.lower()`: only strings have the method. -/
def pyLowerJ (v : JVal) : Except PyErr Str :=
  match v with
  | .str s => .ok (pyLower s)
  | _ => .error .attributeError

/-- Model of Python `str.upper` on one character (ASCII case folding). -/
def pyToUpper (c : Char) : Char :=
  if 97 ≤ c.toNat ∧ c.toNat ≤ 122 then Char.ofNat (c.toNat - 32) else c

/-- Model of Python `str.upper`. -/
def pyUpper (s : Str) : Str := s.map pyToUpper

/-! ## Median computations -/

/-- Values reaching `StorageManager._calculate_median`, per its annotation
`List[Union[float, int, None]]`; `nan` models a float NaN. -/
inductive PyNum where
  | none
  | num (q : ℚ)
  | nan
  deriving Repr, DecidableEq

/-- Model of `StorageManager._calculate_median` from
`services/storage_manager.py`: `None` for an empty list, drop `None` and NaN
entries, `None` when nothing survives, else sort ascending and return the
middle element (odd length) or the mean of the two middle elements (even
length).  `sorted()` is modelled by insertion sort, which computes the same
ascending reordering. -/
def calculateMedian (values : List PyNum) : Option ℚ :=
  if values.isEmpty then none
  else
    let numericValues := values.filterMap (fun v =>
      match v with
      | .num q => some q
      | .nan => none
      | .none => none)
    if numericValues.isEmpty then none
    else
      let sortedValues := List.insertionSort (· ≤ ·) numericValues
      let n := sortedValues.length
      if n % 2 = 0 then
        some ((sortedValues.getD (n / 2 - 1) 0 + sortedValues.getD (n / 2) 0) / 2)
      else some (sortedValues.getD (n / 2) 0)

/-- Model of `SimplifiedStorageManager._calculate_median` from
`simplified_storage_manager.py`: returns `0.0` for an empty list, drops
`None` entries, returns `0.0` when nothing survives, else sorts ascending and
returns the middle element or the mean of the two middle elements.  Unlike the
`StorageManager` version it returns a plain number, never `None`.  (The source
has no NaN filter; NaN inputs are outside this model.) -/
def simplifiedCalculateMedian (values : List (Option ℚ)) : ℚ :=
  if values.isEmpty then 0
  else
    let cleanValues := values.filterMap id
    if cleanValues.isEmpty then 0
    else
      let sortedValues := List.insertionSort (· ≤ ·) cleanValues
      let n := sortedValues.length
      if n % 2 = 0 then
        (sortedValues.getD (n / 2 - 1) 0 + sortedValues.getD (n / 2) 0) / 2
      else sortedValues.getD (n / 2) 0

/-! ## Schema unwrap -/

/-- Model of the schema-unwrap expression
`data.get('results', data) if 'results' in data else data` used throughout
`storage_manager.py` and `hardware_extractor.py`: Python `in` is key lookup
for dicts, element equality for lists and a substring test for strings, and
`.get` exists only on dicts. -/
def unwrap (data : JVal) : Except PyErr JVal := do
  let b ← pyIn (.str (lit "results")) data
  if b then pyGetD data "results" data else pure data

/-! ## GPU name matching (`storage_manager.py`) -/

/-- Model of the inner `normalize_gpu_name` of
`StorageManager._gpu_names_match_single`: lowercase, strip, collapse internal
whitespace, drop one leading vendor marker among `nvidia `/`amd `/`intel `,
then a leading `geforce `, and strip again. -/
def normalizeGpuName (name : Str) : Str :=
  let name := pyStrip (pyLower name)
  let name := joinSpace (pySplitWs name)
  let name :=
    if pyStartsWith (lit "nvidia ") name then name.drop (lit "nvidia ").length
    else if pyStartsWith (lit "amd ") name then name.drop (lit "amd ").length
    else if pyStartsWith (lit "intel ") name then name.drop (lit "intel ").length
    else name
  let name :=
    if pyStartsWith (lit "geforce ") name then name.drop (lit "geforce ").length
    else name
  pyStrip name

/-- Maximal runs of characters satisfying `p`, in order (characters outside
the runs are separators and are dropped). -/
def tokenRuns (p : Char → Bool) : Str → List Str
  | [] => []
  | c :: rest =>
    let r := tokenRuns p rest
    if p c then
      match rest with
      | [] => [[c]]
      | d :: _ =>
        if p d then
          match r with
          | piece :: more => (c :: piece) :: more
          | [] => [[c]]
        else [c] :: r
    else r

/-- Full match of one word token against `\d+[a-z]*`. -/
def isNumTok (t : Str) : Bool :=
  let ds := t.takeWhile isDigitChar
  !ds.isEmpty && (t.drop ds.length).all isLowerChar

/-- Model of `re.findall(r'\b\d+[a-z]*\b', name)`: under the word-boundary
anchors a match is exactly a maximal `\w`-token consisting of digits followed
by lowercase letters. -/
def digitModels (s : Str) : List Str := (tokenRuns isWordChar s).filter isNumTok

/-- End-of-match word boundary `\b`: the next character is absent or not a
word character (every match of the patterns below ends in a word
character). -/
def atWordEnd : Str → Bool
  | [] => true
  | c :: _ => !isWordChar c

/-- Attempt of the regex tail `(?:\s*ti)?\b` at the given point, greedy
branch first; returns the number of extra characters consumed. -/
def nvTailAt (rest : Str) : Option ℕ :=
  let wsr := (rest.takeWhile isWsChar).length
  if (lit "ti").isPrefixOf (rest.drop wsr) && atWordEnd (rest.drop (wsr + 2)) then
    some (wsr + 2)
  else if atWordEnd rest then some 0
  else none

/-- Backtracking of the greedy `[a-z]*` of the NVIDIA model pattern: try the
letter-run length `l` first, shrinking until the tail matches. -/
def nvLettersGo (s3 : Str) : ℕ → Option ℕ
  | 0 => nvTailAt s3
  | l + 1 =>
    match nvTailAt (s3.drop (l + 1)) with
    | some e => some (l + 1 + e)
    | none => nvLettersGo s3 l

/-- Attempt to match `(?:rtx|gtx)\s*\d+[a-z]*(?:\s*ti)?\b` at the head of
`s` (the word boundary before the literal is checked by the caller);
returns the number of characters matched. -/
def nvMatchAt (s : Str) : Option ℕ :=
  if (lit "rtx").isPrefixOf s || (lit "gtx").isPrefixOf s then
    let s1 := s.drop 3
    let w := (s1.takeWhile isWsChar).length
    let s2 := s1.drop w
    let ds := (s2.takeWhile isDigitChar).length
    if ds = 0 then none
    else
      let s3 := s2.drop ds
      (nvLettersGo s3 (s3.takeWhile isLowerChar).length).map (fun e => 3 + w + ds + e)
  else none

/-- A successful NVIDIA-pattern match consumes at least one character. -/
theorem nvMatchAt_pos {s : Str} {k : ℕ} (h : nvMatchAt s = some k) : 0 < k := by
  unfold nvMatchAt at h
  simp only at h
  split at h
  · split at h
    · exact absurd h (by simp)
    · rcases Option.map_eq_some'.mp h with ⟨e, _, he⟩
      omega
  · exact absurd h (by simp)

/-- Left-to-right non-overlapping scan of `re.findall` for the NVIDIA model
pattern; `prevW` records whether the previous character was a word character
(for the leading `\b`).  The fuel argument makes the recursion structural;
every step consumes at least one character, so fuel equal to the string
length is never exhausted. -/
def nvScan : ℕ → Str → Bool → List Str
  | 0, _, _ => []
  | _, [], _ => []
  | fuel + 1, c :: rest, prevW =>
    match (if prevW then none else nvMatchAt (c :: rest)) with
    | some k => (c :: rest).take k :: nvScan fuel ((c :: rest).drop k) true
    | none => nvScan fuel rest (isWordChar c)

/-- Model of
`re.findall(r'\b(?:rtx|gtx)\s*\d+[a-z]*(?:\s*ti)?\b', name)`. -/
def nvModels (s : Str) : List Str := nvScan s.length s false

/-- Nonempty intersection of two findall results viewed as sets, the model of
`if set_a & set_b:`. -/
def setInterNonempty (a b : List Str) : Bool := a.any (fun x => b.contains x)

/-- Generic-pattern list of the Intel branch of `_fuzzy_gpu_match`. -/
def genericIntelPatterns : List Str :=
  [lit "graphics", lit "intel graphics", lit "hd graphics", lit "uhd graphics"]

/-- Longest length among the generic Intel patterns
(`max(len(p) for p in generic_patterns)`). -/
def genericIntelMaxLen : ℕ := (genericIntelPatterns.map List.length).foldl max 0

/-- Model of `StorageManager._fuzzy_gpu_match`.  Every early `return True` of
the source falls through to the next check on failure, so the method equals
this disjunction of its three vendor branches. -/
def fuzzyGpuMatch (gpuName hardwareName : Str) : Bool :=
  (isSub (lit "radeon") gpuName && isSub (lit "radeon") hardwareName &&
    (((gpuName == lit "radeon graphics" || gpuName == lit "radeon") &&
        isSub (lit "radeon") hardwareName &&
        decide ((lit "radeon").length < hardwareName.length)) ||
      ((hardwareName == lit "radeon graphics" || hardwareName == lit "radeon") &&
        isSub (lit "radeon") gpuName &&
        decide ((lit "radeon").length < gpuName.length)) ||
      ((gpuName ++ hardwareName).any isDigitChar &&
        setInterNonempty (digitModels gpuName) (digitModels hardwareName))))
  ||
  (isSub (lit "graphics") gpuName && isSub (lit "graphics") hardwareName &&
    isSub (lit "intel") (gpuName ++ hardwareName) &&
    ((genericIntelPatterns.contains gpuName &&
        decide (genericIntelMaxLen < hardwareName.length)) ||
      (genericIntelPatterns.contains hardwareName &&
        decide (genericIntelMaxLen < gpuName.length))))
  ||
  ((isSub (lit "rtx") (gpuName ++ hardwareName) ||
      isSub (lit "gtx") (gpuName ++ hardwareName) ||
      isSub (lit "nvidia") (gpuName ++ hardwareName)) &&
    setInterNonempty (nvModels gpuName) (nvModels hardwareName))

/-- Model of `StorageManager._gpu_names_match_single`: empty names never
match; otherwise normalize both names, accept exact equality, and fall back
to fuzzy matching. -/
def gpuNamesMatchSingle (gpuName hardwareName : Str) : Bool :=
  if gpuName.isEmpty || hardwareName.isEmpty then false
  else
    let normalizedGpu := normalizeGpuName gpuName
    let normalizedHardware := normalizeGpuName hardwareName
    if normalizedGpu == normalizedHardware then true
    else fuzzyGpuMatch normalizedGpu normalizedHardware

/-- Model of `StorageManager._gpu_names_match`: a comma in the *first*
argument splits it into individually stripped names, any of which may match
the second argument; the second argument is never split. -/
def gpuNamesMatch (gpuName hardwareName : Str) : Bool :=
  if gpuName.isEmpty || hardwareName.isEmpty then false
  else if isSub (lit ",") gpuName then
    ((pySplitOn ',' gpuName).map pyStrip).any (fun g => gpuNamesMatchSingle g hardwareName)
  else gpuNamesMatchSingle gpuName hardwareName

/-! ## Hardware extraction (`hardware_extractor.py`): pattern tables -/

/-- Match of `i\d-\d+` at the head of the string (one digit suffices to
witness `\d+`). -/
def iDigitDashAt : Str → Bool
  | a :: b :: c :: d :: _ => a == 'i' && isDigitChar b && c == '-' && isDigitChar d
  | _ => false

/-- Generic `re.search` scan for a head matcher. -/
def reSearch (pAt : Str → Bool) : Str → Bool
  | [] => pAt []
  | s@(_ :: rest) => pAt s || reSearch pAt rest

/-- Match of `rx\s?\d+` at the head of the string. -/
def rxPatAt : Str → Bool
  | 'r' :: 'x' :: c :: rest =>
    isDigitChar c ||
      (isWsChar c && (match rest with | d :: _ => isDigitChar d | [] => false))
  | _ => false

/-- Model of `re.search(p + '.*' + q, s)` for literal `p`, `q`: some
occurrence of `p` is followed by an occurrence of `q` with no newline in
between (`.` does not match a newline). -/
def dotStarSearch (p q : Str) : Str → Bool
  | [] => false
  | s@(_ :: rest) =>
    (p.isPrefixOf s && isSub q ((s.drop p.length).takeWhile (fun c => c != '\n'))) ||
      dotStarSearch p q rest

/-- Model of `HardwareExtractor._detect_cpu_manufacturer` with its
`cpu_patterns` table: Intel patterns (`intel`, `i\d-\d+`, `xeon`, `celeron`,
`pentium`) before AMD patterns (`amd`, `ryzen`, `epyc`, `threadripper`,
`athlon`); the matched manufacturer key is capitalized; non-strings map to
`Unknown`. -/
def detectCpuManufacturer (cpuName : JVal) : Str :=
  match cpuName with
  | .str name =>
    let n := pyLower name
    if isSub (lit "intel") n || reSearch iDigitDashAt n || isSub (lit "xeon") n ||
        isSub (lit "celeron") n || isSub (lit "pentium") n then lit "Intel"
    else if isSub (lit "amd") n || isSub (lit "ryzen") n || isSub (lit "epyc") n ||
        isSub (lit "threadripper") n || isSub (lit "athlon") n then lit "Amd"
    else lit "Unknown"
  | _ => lit "Unknown"

/-- Model of `HardwareExtractor._detect_gpu_manufacturer` with its
`gpu_patterns` table: NVIDIA patterns, then AMD patterns (`radeon`,
`rx\s?\d+`, `vega`, `fury`, `r9`, `r7`), then Intel patterns
(`intel.*graphics`, `iris`, `uhd.*graphics`); AMD is upper-cased, the other
keys capitalized; non-strings map to `Unknown`. -/
def detectGpuManufacturer (gpuName : JVal) : Str :=
  match gpuName with
  | .str name =>
    let n := pyLower name
    if isSub (lit "nvidia") n || isSub (lit "geforce") n || isSub (lit "gtx") n ||
        isSub (lit "rtx") n || isSub (lit "titan") n || isSub (lit "quadro") n ||
        isSub (lit "tesla") n then lit "Nvidia"
    else if isSub (lit "radeon") n || reSearch rxPatAt n || isSub (lit "vega") n ||
        isSub (lit "fury") n || isSub (lit "r9") n || isSub (lit "r7") n then lit "AMD"
    else if dotStarSearch (lit "intel") (lit "graphics") n || isSub (lit "iris") n ||
        dotStarSearch (lit "uhd") (lit "graphics") n then lit "Intel"
    else lit "Unknown"
  | _ => lit "Unknown"

/-- Model of `HardwareExtractor._detect_gpu_framework`: an explicit framework
string containing `cuda`/`opencl`/`vulkan` wins; otherwise the GPU name
decides (NVIDIA tokens give CUDA, AMD and Intel tokens give OpenCL); a
non-string name gives `Unknown`. -/
def detectGpuFramework (gpuName : JVal) (framework : JVal) : Str :=
  let fromName : Str :=
    match gpuName with
    | .str name =>
      let n := pyLower name
      if isSub (lit "nvidia") n || isSub (lit "geforce") n || isSub (lit "gtx") n ||
          isSub (lit "rtx") n then lit "CUDA"
      else if isSub (lit "radeon") n || isSub (lit "amd") n then lit "OpenCL"
      else if isSub (lit "intel") n then lit "OpenCL"
      else lit "Unknown"
    | _ => lit "Unknown"
  match framework with
  | .str f =>
    if !f.isEmpty then
      let fl := pyLower f
      if isSub (lit "cuda") fl then lit "CUDA"
      else if isSub (lit "opencl") fl then lit "OpenCL"
      else if isSub (lit "vulkan") fl then lit "Vulkan"
      else fromName
    else fromName
  | _ => fromName

/-- Model of `HardwareExtractor._is_cpu_device`: a string framework hint
equal to `cpu` (case-insensitively) forces CPU; non-string names are not
CPUs; strong CPU keywords win over everything, then strong GPU keywords,
then generic `graphics`/`gpu`, then fallback CPU keywords. -/
def isCpuDevice (deviceName : JVal) (framework : JVal) : Bool :=
  (match framework with
   | .str f => !f.isEmpty && pyLower f == lit "cpu"
   | _ => false) ||
  (match deviceName with
   | .str name =>
     let n := pyLower name
     if [lit "ryzen", lit "xeon", lit "celeron", lit "pentium", lit "threadripper",
         lit "epyc"].any (fun k => isSub k n) then true
     else if [lit "radeon graphics", lit "geforce", lit "gtx", lit "rtx", lit "quadro",
         lit "tesla"].any (fun k => isSub k n) then false
     else if isSub (lit "graphics") n || isSub (lit "gpu") n then false
     else [lit "cpu", lit "processor", lit "intel", lit "amd"].any (fun k => isSub k n)
   | _ => false)

/-- Model of `HardwareExtractor._generate_hardware_id` on an arbitrary value:
non-strings map to the constant `unknown-hardware`. -/
def generateHardwareIdJ (v : JVal) : Str :=
  match v with
  | .str s => generateHardwareId s
  | _ => lit "unknown-hardware"

/-! ## Hardware extraction: normalization and name improvement -/

/-- Model of `HardwareExtractor._normalize_cpu_info`.  A plain string becomes
a CPU record directly; otherwise `name`/`model` are looked up lazily with
fallback `Unknown CPU` and `cores`/`threads` are converted with `int` when
truthy (`.get` on a non-dict raises, as in Python). -/
def normalizeCpuInfo (cpuData : JVal) : Except PyErr JVal :=
  match cpuData with
  | .str s =>
    .ok (.obj [("name", .str s), ("type", .str (lit "cpu")),
      ("manufacturer", .str (detectCpuManufacturer (.str s))),
      ("cores", .null), ("threads", .null)])
  | _ => do
    let n1 ← pyGet cpuData "name"
    let name ←
      if n1.truthy then pure n1
      else do
        let n2 ← pyGet cpuData "model"
        if n2.truthy then pure n2 else pure (JVal.str (lit "Unknown CPU"))
    let coresV ← pyGet cpuData "cores"
    let cores ←
      if coresV.truthy then do
        let c ← pyGetD cpuData "cores" (.num 0)
        let i ← pyToInt c
        pure (JVal.num i)
      else pure JVal.null
    let threadsV ← pyGet cpuData "threads"
    let threads ←
      if threadsV.truthy then do
        let t ← pyGetD cpuData "threads" (.num 0)
        let i ← pyToInt t
        pure (JVal.num i)
      else pure JVal.null
    pure (.obj [("name", name), ("type", .str (lit "cpu")),
      ("manufacturer", .str (detectCpuManufacturer name)),
      ("cores", cores), ("threads", threads)])

/-- Model of `HardwareExtractor._normalize_gpu_info`. -/
def normalizeGpuInfo (gpuData : JVal) : Except PyErr JVal :=
  match gpuData with
  | .str s =>
    .ok (.obj [("name", .str s), ("type", .str (lit "gpu")),
      ("manufacturer", .str (detectGpuManufacturer (.str s))),
      ("framework", .str (detectGpuFramework (.str s) .null))])
  | _ => do
    let n1 ← pyGet gpuData "name"
    let name := if n1.truthy then n1 else JVal.str (lit "Unknown GPU")
    let fw ← pyGet gpuData "framework"
    let framework := if fw.truthy then fw else JVal.str (detectGpuFramework name .null)
    pure (.obj [("name", name), ("type", .str (lit "gpu")),
      ("manufacturer", .str (detectGpuManufacturer name)),
      ("framework", framework)])

/-- Model of `HardwareExtractor._hardware_exists`: some existing entry has a
string name equal, case-insensitively, to the new entry's string name. -/
def hardwareExists (hardwareList : List JVal) (newHardware : JVal) : Except PyErr Bool :=
  hardwareList.anyM (fun existing => do
    let e ← pyGetD existing "name" (.str [])
    let n ← pyGetD newHardware "name" (.str [])
    match e, n with
    | .str es, .str ns => pure (pyLower es == pyLower ns)
    | _, _ => pure false)

/-- One generic/specific pattern pair test of
`HardwareExtractor._are_related_gpu_names`. -/
def relatedPair (generic specific name1 name2 : Str) : Bool :=
  (isSub generic name1 && (pySplitWs specific).any (fun w => isSub w name2)) ||
    (isSub generic name2 && (pySplitWs specific).any (fun w => isSub w name1))

/-- Model of `HardwareExtractor._are_related_gpu_names` (inputs are already
lower-cased by the caller). -/
def areRelatedGpuNames (name1 name2 : Str) : Bool :=
  relatedPair (lit "amd radeon graphics") (lit "amd radeon") name1 name2 ||
  relatedPair (lit "intel graphics") (lit "intel hd graphics") name1 name2 ||
  relatedPair (lit "intel graphics") (lit "intel uhd graphics") name1 name2 ||
  (isSub (lit "radeon") name1 && isSub (lit "radeon") name2 &&
    isSub (lit "amd") name1 && isSub (lit "amd") name2) ||
  (isSub (lit "intel") name1 && isSub (lit "intel") name2 &&
    isSub (lit "graphics") name1 && isSub (lit "graphics") name2) ||
  (isSub (lit "nvidia") name1 && isSub (lit "nvidia") name2)

/-- Model of `HardwareExtractor._is_more_specific_gpu_name`: each name scores
the number of specific indicator substrings minus the number of generic
indicator substrings plus its whitespace-token count; `name1` wins on a
strictly greater score. -/
def isMoreSpecificGpuName (name1 name2 : Str) : Bool :=
  let n1 := pyLower name1
  let n2 := pyLower name2
  let genericIndicators := [lit "graphics", lit "gpu", lit "device"]
  let specificIndicators :=
    [lit "rx", lit "gtx", lit "rtx", lit "gen", lit "hd", lit "uhd", lit "m", lit "ti"]
  let name1Generic := (genericIndicators.filter (fun i => isSub i n1)).length
  let name1Specific := (specificIndicators.filter (fun i => isSub i n1)).length
  let name2Generic := (genericIndicators.filter (fun i => isSub i n2)).length
  let name2Specific := (specificIndicators.filter (fun i => isSub i n2)).length
  let name1Score : ℤ :=
    (name1Specific : ℤ) - name1Generic + (pySplitWs name1).length
  let name2Score : ℤ :=
    (name2Specific : ℤ) - name2Generic + (pySplitWs name2).length
  name2Score < name1Score

/-- The name comparison of `_consolidate_gpu_entries` calls
`_is_more_specific_gpu_name` on the raw `['name']` values, whose `.lower()`
raises for non-strings. -/
def isMoreSpecificGpuNameJ (name1 name2 : JVal) : Except PyErr Bool :=
  match name1, name2 with
  | .str a, .str b => .ok (isMoreSpecificGpuName a b)
  | _, _ => .error .attributeError

/-- Inner loop of `HardwareExtractor._consolidate_gpu_entries`: scan the
accepted entries for one with the same manufacturer and a related name;
return the accepted list with that entry replaced when the current name is
more specific (`none` when no related entry exists). -/
def consolidateScan (currentGpu : JVal) (currentName currentManufacturer : Str) :
    List JVal → Except PyErr (Option (List JVal))
  | [] => .ok none
  | existingGpu :: more => do
    let en ← pyGetD existingGpu "name" (.str [])
    let existingName ← pyLowerJ en
    let em ← pyGetD existingGpu "manufacturer" (.str (lit "unknown"))
    let existingManufacturer ← pyLowerJ em
    if currentManufacturer == existingManufacturer &&
        areRelatedGpuNames currentName existingName then do
      let cn ← pySub currentGpu "name"
      let enRaw ← pySub existingGpu "name"
      let b ← isMoreSpecificGpuNameJ cn enRaw
      if b then pure (some (currentGpu :: more))
      else pure (some (existingGpu :: more))
    else do
      let r ← consolidateScan currentGpu currentName currentManufacturer more
      match r with
      | some updated => pure (some (existingGpu :: updated))
      | none => pure none

/-- Outer loop of `HardwareExtractor._consolidate_gpu_entries`. -/
def consolidateGo : List JVal → List JVal → Except PyErr (List JVal)
  | [], consolidated => .ok consolidated
  | currentGpu :: rest, consolidated => do
    let cn ← pyGetD currentGpu "name" (.str [])
    let currentName ← pyLowerJ cn
    let cm ← pyGetD currentGpu "manufacturer" (.str (lit "unknown"))
    let currentManufacturer ← pyLowerJ cm
    let r ← consolidateScan currentGpu currentName currentManufacturer consolidated
    match r with
    | some updated => consolidateGo rest updated
    | none => consolidateGo rest (consolidated ++ [currentGpu])

/-- Model of `HardwareExtractor._consolidate_gpu_entries`: deduplicate GPU
candidates, keeping the more specific of two related names from the same
manufacturer. -/
def consolidateGpuEntries (gpuList : List JVal) : Except PyErr (List JVal) :=
  if gpuList.isEmpty then .ok gpuList
  else consolidateGo gpuList []

/-! ## Hardware extraction: GPU name improvement -/

/-- Literal match at the head, returning the rest. -/
def litThen (pat : Str) (s : Str) : Option Str :=
  if pat.isPrefixOf s then some (s.drop pat.length) else none

/-- Regex `\s+`: at least one whitespace character, greedily consumed. -/
def wsPlus (s : Str) : Option Str :=
  let w := (s.takeWhile isWsChar).length
  if w = 0 then none else some (s.drop w)

/-- Regex `\s*`: greedy whitespace. -/
def wsStar (s : Str) : Str := s.drop (s.takeWhile isWsChar).length

/-- Regex capture `(\d+m)` at the head: a maximal digit run followed by a
literal `m`. -/
def digitsCapM (s : Str) : Option Str :=
  let d := s.takeWhile isDigitChar
  if d.isEmpty then none
  else
    match s.drop d.length with
    | 'm' :: _ => some (d ++ ['m'])
    | _ => none

/-- Regex capture `([\w]+)` at the head. -/
def wordCap (s : Str) : Option Str :=
  let t := s.takeWhile isWordChar
  if t.isEmpty then none else some t

/-- Generic `re.search` scan for a head matcher with a capture. -/
def reSearchCap (pAt : Str → Option Str) : Str → Option Str
  | [] => pAt []
  | s@(_ :: rest) =>
    match pAt s with
    | some cap => some cap
    | none => reSearchCap pAt rest

/-- Head match of `radeon\s+(\d+m)` (on lower-cased input). -/
def radeonNumMAt (s : Str) : Option Str := do
  let r ← litThen (lit "radeon") s
  let r ← wsPlus r
  digitsCapM r

/-- Head match of `radeon\s+([\w\d]+)` (`[\w\d]` equals `\w`). -/
def radeonWordAt (s : Str) : Option Str := do
  let r ← litThen (lit "radeon") s
  let r ← wsPlus r
  wordCap r

/-- Case-insensitive literal match at the head, returning the rest of the
original-case string. -/
def ciLitThen (pat : Str) (s : Str) : Option Str :=
  if pat.isPrefixOf (pyLower s) then some (s.drop pat.length) else none

/-- Head match of `radeon\s+([\w]+)` with `re.IGNORECASE`, capturing in the
original case. -/
def radeonWordCiAt (s : Str) : Option Str := do
  let r ← ciLitThen (lit "radeon") s
  let r ← wsPlus r
  wordCap r

/-- Head match of `w/\s*radeon\s+(\d+m)`. -/
def wSlashRadeonAt (s : Str) : Option Str := do
  let r ← litThen (lit "w/") s
  radeonNumMAt (wsStar r)

/-- Head match of `with\s*radeon\s+(\d+m)`. -/
def withRadeonAt (s : Str) : Option Str := do
  let r ← litThen (lit "with") s
  radeonNumMAt (wsStar r)

/-- Head match of `(\d+)th\s+gen` (on lower-cased input), capturing the
digits. -/
def genThGenAt (s : Str) : Option Str :=
  let d := s.takeWhile isDigitChar
  if d.isEmpty then none
  else do
    let r ← litThen (lit "th") (s.drop d.length)
    let r ← wsPlus r
    let _ ← litThen (lit "gen") r
    pure d

/-- Head match of `i\d-?(\d{4})` (optional dash), capturing the four
digits. -/
def genIDigitOptDashAt (s : Str) : Option Str :=
  match s with
  | 'i' :: c :: rest =>
    if isDigitChar c then
      let body := match rest with | '-' :: r => r | r => r
      let four := body.take 4
      if four.length = 4 && four.all isDigitChar then some four else none
    else none
  | _ => none

/-- Head match of `i\d-(\d{4})` (mandatory dash), capturing the four
digits. -/
def genIDigitDashAt (s : Str) : Option Str :=
  match s with
  | 'i' :: c :: '-' :: rest =>
    if isDigitChar c then
      let four := rest.take 4
      if four.length = 4 && four.all isDigitChar then some four else none
    else none
  | _ => none

/-- Last window of four consecutive digits in the string (the greedy `.*`
before `(\d{4})` captures the last possible window). -/
def lastFourDigits : Str → Option Str
  | [] => none
  | s@(_ :: rest) =>
    match lastFourDigits rest with
    | some g => some g
    | none =>
      let four := s.take 4
      if four.length = 4 && four.all isDigitChar then some four else none

/-- Model of `re.search(r'intel.*(\d{4})', s)` on a lower-cased string: after
the first `intel` occurrence followed (without a newline) by four consecutive
digits, the greedy gap captures the last such window. -/
def searchIntelFourDigits : Str → Option Str
  | [] => none
  | s@(_ :: rest) =>
    if (lit "intel").isPrefixOf s then
      match lastFourDigits ((s.drop (lit "intel").length).takeWhile (fun c => c != '\n')) with
      | some g => some g
      | none => searchIntelFourDigits rest
    else searchIntelFourDigits rest

/-- Model of the alternation search
`re.search(r'(\d+)th\s+gen|i\d-?(\d{4})', name, re.IGNORECASE)` used by
`_improve_gpu_name` (the caller passes the lower-cased text; captures are
digits, so case folding does not affect them).  Returns the pair
`(group(1), group(2))`. -/
def searchGenBlender : Str → Option (Option Str × Option Str)
  | [] => none
  | s@(_ :: rest) =>
    match genThGenAt s with
    | some g1 => some (some g1, none)
    | none =>
      match genIDigitOptDashAt s with
      | some g2 => some (none, some g2)
      | none => searchGenBlender rest

/-- Model of `HardwareExtractor._improve_gpu_name_from_cpu_info`.  The
source's `'th gen' in pattern` test compares against the literal pattern
text `(\d+)th\s+gen`, which does not contain `th gen`, so the direct
generation branch is dead and every match goes through the
`len(model_num) == 4` branch; this model spells those pattern-text tests
out. -/
def improveGpuNameFromCpuInfo (gpuName cpuInfo : JVal) : JVal :=
  match gpuName, cpuInfo with
  | .str g, .str ci =>
    let gl := pyLower g
    let cil := pyLower ci
    if isSub (lit "amd") gl && isSub (lit "radeon") gl &&
        (gl == lit "amd radeon graphics" || gl == lit "amd radeon" ||
          gl == lit "radeon graphics") then
      match reSearchCap radeonNumMAt cil with
      | some cap => .str (lit "AMD Radeon " ++ pyUpper cap)
      | none =>
        match reSearchCap radeonWordAt cil with
        | some cap => .str (lit "AMD Radeon " ++ pyUpper cap)
        | none =>
          match reSearchCap wSlashRadeonAt cil with
          | some cap => .str (lit "AMD Radeon " ++ pyUpper cap)
          | none =>
            match reSearchCap withRadeonAt cil with
            | some cap => .str (lit "AMD Radeon " ++ pyUpper cap)
            | none => gpuName
    else if isSub (lit "intel") gl &&
        (gl == lit "intel graphics" || gl == lit "intel hd graphics" ||
          gl == lit "intel uhd graphics") then
      let tryPat (cap : Option Str) (thGenInPat : Bool) (next : JVal) : JVal :=
        match cap with
        | some modelNum =>
          if thGenInPat then .str (lit "Intel " ++ modelNum ++ lit "th Gen Graphics")
          else if modelNum.length = 4 then
            .str (lit "Intel " ++ modelNum.take 2 ++ lit "th Gen Graphics")
          else next
        | none => next
      tryPat (reSearchCap genThGenAt cil) (isSub (lit "th gen") (lit "(\\d+)th\\s+gen"))
        (tryPat (reSearchCap genIDigitDashAt cil) (isSub (lit "th gen") (lit "i\\d-(\\d4)"))
          (tryPat (searchIntelFourDigits cil) (isSub (lit "th gen") (lit "intel.*(\\d4)"))
            gpuName))
    else gpuName
  | _, _ => gpuName

/-- Model of `HardwareExtractor._improve_gpu_name`: a specific enough name is
kept; otherwise CPU entries of the system device list may contribute an
embedded Radeon model or an Intel generation. -/
def improveGpuName (gpuName : JVal) (systemDevices : JVal) : Except PyErr Str := do
  match gpuName with
  | .str g =>
    if (pySplitWs g).length > 2 && !(isSub (lit "graphics") (pyLower g)) then pure g
    else if systemDevices.truthy then do
      let devices ← pyIter systemDevices
      let found ← devices.foldlM (fun (acc : Option Str) device => do
        match acc with
        | some r => pure (some r)
        | none => do
          let deviceName ← pyGetD device "name" (.str [])
          let deviceType ← pyGetD device "type" (.str [])
          if pyEq deviceType (.str (lit "CPU")) && deviceName.isStr then
            match deviceName with
            | .str dn =>
              if isSub (lit "radeon") (pyLower dn) && isSub (lit "amd") (pyLower g) then
                match reSearchCap radeonWordCiAt dn with
                | some cap => pure (some (lit "AMD Radeon " ++ cap))
                | none => pure none
              else if isSub (lit "intel") (pyLower dn) && isSub (lit "intel") (pyLower g) then
                match searchGenBlender (pyLower dn) with
                | some (some g1, _) =>
                  pure (some (lit "Intel " ++ g1 ++ lit "th Gen Graphics"))
                | some (_, some g2) =>
                  pure (some (lit "Intel " ++ g2.take 2 ++ lit "th Gen Graphics"))
                | some (none, none) => pure none
                | none => pure none
              else pure none
            | _ => pure none
          else pure none) none
      match found with
      | some r => pure r
      | none => pure g
    else pure g
  | _ => pure (lit "Unknown GPU")

/-! ## Hardware extraction: per-benchmark extractors -/

/-- Replacement of the binding of `k` (or appending it), the model of Python
`d[k] = v` on a dict. -/
def setKeyList : List (String × JVal) → String → JVal → List (String × JVal)
  | [], k, w => [(k, w)]
  | (k', v') :: rest, k, w =>
    if k' = k then (k, w) :: rest else (k', v') :: setKeyList rest k w

/-- Model of Python `d[k] = v`. -/
def pySetKey (v : JVal) (k : String) (w : JVal) : Except PyErr JVal :=
  match v with
  | .obj kvs => .ok (.obj (setKeyList kvs k w))
  | _ => .error .typeError

/-- The mutable `hardware_info` accumulator of
`HardwareExtractor.extract_hardware_info`. -/
structure HwInfo where
  cpus : List JVal
  gpus : List JVal
  memory : Option JVal
  os : Option JVal

/-- Initial `hardware_info` value. -/
def emptyHwInfo : HwInfo := ⟨[], [], none, none⟩

/-- Model of `HardwareExtractor._extract_from_blender`: each entry of
`device_runs` with an individual (non comma-joined) `device_name` becomes a
CPU or GPU candidate; comma-joined names are skipped. -/
def extractFromBlender (data : JVal) (hw : HwInfo) : Except PyErr HwInfo := do
  let actualData ← unwrap data
  let drCheck ← pyGet actualData "device_runs"
  if !drCheck.truthy then pure hw
  else do
    let deviceRunsV ← pySub actualData "device_runs"
    let deviceRuns ← pyIter deviceRunsV
    deviceRuns.foldlM (fun hw deviceRun => do
      let rawJson ← pyGetD deviceRun "raw_json" (.arr [])
      let systemDevices ←
        if rawJson.truthy then do
          let len ← pyLen rawJson
          if len > 0 then do
            let first ← pyIndex rawJson 0
            let systemInfo ← pyGetD first "system_info" (.obj [])
            pyGetD systemInfo "devices" (.arr [])
          else pure (JVal.arr [])
        else pure (JVal.arr [])
      let hasName ← pyIn (.str (lit "device_name")) deviceRun
      if !hasName then pure hw
      else do
        let deviceNameV ← pySub deviceRun "device_name"
        let deviceName := pyStr deviceNameV
        let framework ← pyGet deviceRun "device_framework"
        if isSub (lit ",") deviceName && (pySplitOn ',' deviceName).length > 1 then
          pure hw
        else if isCpuDevice (.str deviceName) framework then do
          let cpu := JVal.obj [("name", .str deviceName), ("type", .str (lit "cpu")),
            ("manufacturer", .str (detectCpuManufacturer (.str deviceName))),
            ("cores", .null), ("threads", .null)]
          let exs ← hardwareExists hw.cpus cpu
          if exs then pure hw else pure { hw with cpus := hw.cpus ++ [cpu] }
        else do
          let improvedGpuName ← improveGpuName (.str deviceName) systemDevices
          let gpu ← normalizeGpuInfo (.obj [("name", .str improvedGpuName),
            ("framework", .str (detectGpuFramework (.str improvedGpuName) framework))])
          let exs ← hardwareExists hw.gpus gpu
          if exs then pure hw else pure { hw with gpus := hw.gpus ++ [gpu] }) hw

/-- CPU-run loop of `_extract_from_llama`: the first run with a truthy
`metrics.system_info.cpu_info` contributes a CPU candidate and stops the
loop, returning the collected `cpu_info`. -/
def llamaCpuLoop (hw : HwInfo) : List JVal → Except PyErr (HwInfo × Option JVal)
  | [] => pure (hw, none)
  | run :: rest => do
    let m ← pyGetD run "metrics" (.obj [])
    let si ← pyGetD m "system_info" (.obj [])
    let cpuInfo ← pyGet si "cpu_info"
    if cpuInfo.truthy then do
      let cpu ← normalizeCpuInfo cpuInfo
      let exs ← hardwareExists hw.cpus cpu
      let hw := if exs then hw else { hw with cpus := hw.cpus ++ [cpu] }
      pure (hw, some cpuInfo)
    else llamaCpuLoop hw rest

/-- Legacy GPU-run loop of `_extract_from_llama`: the first run with a truthy
`metrics.system_info.gpu_info` contributes a GPU candidate and stops the
loop. -/
def llamaLegacyGpuLoop (hw : HwInfo) : List JVal → Except PyErr HwInfo
  | [] => pure hw
  | run :: rest => do
    let m ← pyGetD run "metrics" (.obj [])
    let si ← pyGetD m "system_info" (.obj [])
    let gpuInfo ← pyGet si "gpu_info"
    if gpuInfo.truthy then do
      let gpu ← normalizeGpuInfo gpuInfo
      let exs ← hardwareExists hw.gpus gpu
      pure (if exs then hw else { hw with gpus := hw.gpus ++ [gpu] })
    else llamaLegacyGpuLoop hw rest

/-- Model of `HardwareExtractor._extract_from_llama`: GPU candidates come
from `device_runs` (note the unguarded `device_run['device_name']`
subscript), CPU info from `runs_cpu`, with `gpu_selection` and legacy
`runs_gpu` as fallbacks, and a final generic-GPU-name improvement pass from
the collected CPU info. -/
def extractFromLlama (data : JVal) (hw : HwInfo) : Except PyErr HwInfo := do
  let actualData ← unwrap data
  let drCheck ← pyGet actualData "device_runs"
  let hw ←
    if drCheck.truthy then do
      let deviceRuns ← pyIter (← pySub actualData "device_runs")
      deviceRuns.foldlM (fun hw deviceRun => do
        let dt ← pyGet deviceRun "device_type"
        if pyEq dt (.str (lit "gpu")) then do
          let deviceName ← pySub deviceRun "device_name"
          let deviceIndex ← pyGet deviceRun "device_index"
          let driver ← pyGetD deviceRun "device_driver" (.str (lit "unknown"))
          let gpu := JVal.obj [("name", deviceName), ("type", .str (lit "gpu")),
            ("manufacturer", .str (detectGpuManufacturer deviceName)),
            ("framework", .str (lit "Vulkan")),
            ("device_index", deviceIndex), ("driver", driver)]
          let exs ← hardwareExists hw.gpus gpu
          if exs then pure hw else pure { hw with gpus := hw.gpus ++ [gpu] }
        else pure hw) hw
    else pure hw
  let rcCheck ← pyGet actualData "runs_cpu"
  let (hw, cpuInfoCollected) ←
    if rcCheck.truthy then do
      let runs ← pyIter (← pySub actualData "runs_cpu")
      llamaCpuLoop hw runs
    else pure (hw, none)
  let hw ←
    if hw.gpus.isEmpty then do
      let gpuSelection ← pyGet actualData "gpu_selection"
      let agCheck ←
        if gpuSelection.truthy then do
          let ag ← pyGet gpuSelection "available_gpus"
          pure ag.truthy
        else pure false
      if gpuSelection.truthy && agCheck then do
        let availableGpus ← pyIter (← pySub gpuSelection "available_gpus")
        availableGpus.foldlM (fun hw gpuDevice => do
          let nameV ← pySub gpuDevice "name"
          let indexV ← pySub gpuDevice "index"
          let icd ← pyGet gpuDevice "icd_path"
          let gpu := JVal.obj [("name", nameV), ("type", .str (lit "gpu")),
            ("manufacturer", .str (detectGpuManufacturer nameV)),
            ("framework", .str (lit "Vulkan")),
            ("device_index", indexV), ("icd_path", icd)]
          let exs ← hardwareExists hw.gpus gpu
          if exs then pure hw else pure { hw with gpus := hw.gpus ++ [gpu] }) hw
      else do
        let rgCheck ← pyGet actualData "runs_gpu"
        if rgCheck.truthy then do
          let runs ← pyIter (← pySub actualData "runs_gpu")
          llamaLegacyGpuLoop hw runs
        else pure hw
    else pure hw
  match cpuInfoCollected with
  | some cpuInfo =>
    if cpuInfo.truthy && !hw.gpus.isEmpty then do
      let gpus ← hw.gpus.mapM (fun gpu => do
        let originalName ← pySub gpu "name"
        let improvedName := improveGpuNameFromCpuInfo originalName cpuInfo
        if !(pyEq improvedName originalName) then
          pySetKey gpu "name" improvedName
        else pure gpu)
      pure { hw with gpus := gpus }
    else pure hw
  | none => pure hw

/-- Model of `HardwareExtractor._extract_from_7zip`: a CPU candidate from
`system_info.cpu`, plus first-writer-wins memory and OS fields. -/
def extractFrom7zip (data : JVal) (hw : HwInfo) : Except PyErr HwInfo := do
  let actualData ← unwrap data
  let systemInfo ← pyGetD actualData "system_info" (.obj [])
  let hasCpu ← pyIn (.str (lit "cpu")) systemInfo
  let hw ←
    if hasCpu then do
      let cpuV ← pySub systemInfo "cpu"
      let cpu ← normalizeCpuInfo cpuV
      let exs ← hardwareExists hw.cpus cpu
      pure (if exs then hw else { hw with cpus := hw.cpus ++ [cpu] })
    else pure hw
  let hasMem ← pyIn (.str (lit "memory")) systemInfo
  let hw ←
    if hasMem && hw.memory.isNone then do
      let m ← pySub systemInfo "memory"
      pure { hw with memory := some m }
    else pure hw
  let hasOs ← pyIn (.str (lit "os")) systemInfo
  if hasOs && hw.os.isNone then do
    let o ← pySub systemInfo "os"
    pure { hw with os := some o }
  else pure hw

/-- Model of `HardwareExtractor._extract_from_reversan`: unwraps the payload
and contributes nothing. -/
def extractFromReversan (data : JVal) (hw : HwInfo) : Except PyErr HwInfo := do
  let _ ← unwrap data
  pure hw

/-! ## Hardware extraction: main entry point -/

/-- Model of the Pydantic `StoredHardware` record as populated by
`extract_hardware_info` (`benchmark_runs` is always `[]` and the timestamps
are `0` there). -/
structure StoredHardware where
  id : Str
  name : JVal
  manufacturer : JVal
  type : Str
  cores : JVal
  framework : JVal
  directoryPath : Str
  benchmarkRuns : List JVal
  createdAt : ℤ
  updatedAt : ℤ

/-- Model of `HardwareExtractor._get_primary_hardware`. -/
def getPrimaryHardware (extractedHardware : List JVal) (providedName : JVal) : JVal :=
  match extractedHardware with
  | [] =>
    .obj [("name", if providedName.truthy then providedName else .str (lit "Unknown")),
      ("manufacturer", .str (lit "Unknown")), ("type", .str (lit "unknown"))]
  | first :: _ => first

/-- The CPU `StoredHardware` construction of `extract_hardware_info` (both
the main and the fallback branch build exactly this record). -/
def mkCpuEntry (primaryCpu : JVal) : Except PyErr StoredHardware := do
  let nameV ← pySub primaryCpu "name"
  let cpuId := generateHardwareIdJ nameV
  let nameV2 ← pySub primaryCpu "name"
  let manufacturer ← pyGetD primaryCpu "manufacturer" (.str (lit "Unknown"))
  let cores ← pyGet primaryCpu "cores"
  pure
    { id := cpuId, name := nameV2, manufacturer := manufacturer, type := lit "cpu",
      cores := cores, framework := .null, directoryPath := lit "cpu/" ++ cpuId,
      benchmarkRuns := [], createdAt := 0, updatedAt := 0 }

/-- The per-GPU `StoredHardware` construction of `extract_hardware_info`:
only candidates with a string name different from `unknown`
(case-insensitively) produce an entry. -/
def mkGpuEntry (gpuInfo : JVal) : Except PyErr (Option StoredHardware) := do
  let nameV ← pyGet gpuInfo "name"
  match nameV with
  | .str n =>
    if pyLower n != lit "unknown" then do
      let gpuId := generateHardwareId n
      let manufacturer ← pyGetD gpuInfo "manufacturer" (.str (lit "Unknown"))
      let fw ← pyGet gpuInfo "framework"
      pure (some
        { id := gpuId, name := .str n, manufacturer := manufacturer,
          type := lit "gpu", cores := .null, framework := fw,
          directoryPath := lit "gpu/" ++ gpuId, benchmarkRuns := [],
          createdAt := 0, updatedAt := 0 })
    else pure none
  | _ => pure none

/-- The `cpu_benchmarks` detection loop of `extract_hardware_info`. -/
def cpuBenchmarksFor (benchmarkData : List (String × JVal)) : Except PyErr (List String) :=
  benchmarkData.foldlM (fun acc p => do
    let bt := p.1
    let data := p.2
    if bt = "7zip" || bt = "reversan" then pure (acc ++ [bt])
    else if bt = "llama" then do
      let actual ← unwrap data
      let rc ← pyGet actual "runs_cpu"
      pure (if rc.truthy then acc ++ [bt] else acc)
    else if bt = "blender" then do
      let actual ← unwrap data
      let drV ← pyGet actual "device_runs"
      let deviceRuns := if drV.truthy then drV else .arr []
      let drs ← pyIter deviceRuns
      let anyCpu ← drs.anyM (fun dr => do
        let dr' := if dr.truthy then dr else .obj []
        let fw ← pyGet dr' "device_framework"
        pure (pyEq fw (.str (lit "CPU"))))
      pure (if anyCpu then acc ++ [bt] else acc)
    else pure acc) []

/-- The `gpu_benchmarks` detection loop of `extract_hardware_info` (its
result is never read by the source, but the loop still runs and can
raise). -/
def gpuBenchmarksFor (benchmarkData : List (String × JVal)) : Except PyErr (List String) :=
  benchmarkData.foldlM (fun acc p => do
    let bt := p.1
    let data := p.2
    if bt = "blender" then pure (acc ++ [bt])
    else if bt = "llama" then do
      let actual ← unwrap data
      let rg ← pyGet actual "runs_gpu"
      pure (if rg.truthy then acc ++ [bt] else acc)
    else pure acc) []

/-- The per-GPU entry loop of `extract_hardware_info` (used once in the main
path and once in the fallback path of the source). -/
def gpuEntriesLoop (gpus : List JVal) (entries : List StoredHardware) :
    Except PyErr (List StoredHardware) :=
  gpus.foldlM (fun acc gpuInfo => do
    let e ← mkGpuEntry gpuInfo
    match e with
    | some entry => pure (acc ++ [entry])
    | none => pure acc) entries

/-- Model of `HardwareExtractor.extract_hardware_info`: run the four
per-benchmark extractors, consolidate GPU candidates, then build CPU and GPU
`StoredHardware` entries, with a fallback pass when no entry was created. -/
def extractHardwareInfo (benchmarkData : List (String × JVal)) (providedHardware : JVal) :
    Except PyErr (List StoredHardware) := do
  let hw ← benchmarkData.foldlM (fun hw p => do
    let bt := p.1
    let data := p.2
    if !data.truthy then pure hw
    else if bt = "blender" then extractFromBlender data hw
    else if bt = "llama" then extractFromLlama data hw
    else if bt = "7zip" then extractFrom7zip data hw
    else if bt = "reversan" then extractFromReversan data hw
    else pure hw) emptyHwInfo
  let gpus ← consolidateGpuEntries hw.gpus
  let hw := { hw with gpus := gpus }
  let providedCpu ← pyGet providedHardware "cpu"
  let primaryCpu := getPrimaryHardware hw.cpus providedCpu
  let providedGpu ← pyGet providedHardware "gpu"
  let _primaryGpu := getPrimaryHardware hw.gpus providedGpu
  let cpuBenchmarks ← cpuBenchmarksFor benchmarkData
  let entries ←
    if !cpuBenchmarks.isEmpty && primaryCpu.truthy then do
      let e ← mkCpuEntry primaryCpu
      pure [e]
    else pure ([] : List StoredHardware)
  let _gpuBenchmarks ← gpuBenchmarksFor benchmarkData
  let entries ← gpuEntriesLoop hw.gpus entries
  if entries.isEmpty then do
    let entries ← gpuEntriesLoop hw.gpus []
    if entries.isEmpty && primaryCpu.truthy then do
      let e ← mkCpuEntry primaryCpu
      pure [e]
    else pure entries
  else pure entries

/-! ## 7zip aggregation (`StorageManager._process_7zip_data`) -/

/-- Run extraction for one 7zip payload file: unwrap the optional `results`
envelope (this variant checks that the envelope value is a dict), read
`runs` with default `[]`, and keep it only when it is a list. -/
def sevenzipRunsOfFile (data : JVal) : Except PyErr (List JVal) := do
  let r ← pyGet data "results"
  let src := if r.isObj then r else data
  let src' := if src.truthy then src else JVal.obj []
  let runs ← pyGetD src' "runs" (.arr [])
  match runs with
  | .arr xs => pure xs
  | _ => pure []

/-- Concatenation of the runs of all payload files, in file order
(`all_runs.extend(runs)`). -/
def sevenzipAllRuns : List JVal → Except PyErr (List JVal)
  | [] => .ok []
  | d :: rest => do
    let runs ← sevenzipRunsOfFile d
    let more ← sevenzipAllRuns rest
    pure (runs ++ more)

/-- Hashable values (usable as Python dict keys). -/
def JVal.hashable : JVal → Bool
  | .arr _ => false
  | .obj _ => false
  | _ => true

/-- Group key of one run, `run.get("threads", 0)`; using it as a dict key
requires hashability. -/
def runThreadsKey (run : JVal) : Except PyErr JVal := do
  let t ← pyGetD run "threads" (.num 0)
  if t.hashable then pure t else .error .typeError

/-- The grouping pass of `_process_7zip_data` pairs every run with its key,
in order. -/
def sevenzipKeyedRuns : List JVal → Except PyErr (List (JVal × JVal))
  | [] => .ok []
  | run :: rest => do
    let t ← runThreadsKey run
    let more ← sevenzipKeyedRuns rest
    pure ((t, run) :: more)

/-- Conversion of a value that passed `isinstance(v, (int, float))` to the
median input type (`bool` counts as 0/1, a NaN float stays NaN). -/
def pynumOf : JVal → PyNum
  | .num q => .num q
  | .bool b => .num (if b then 1 else 0)
  | _ => .nan

/-- Model of the metric comprehension
`[run.get(k) for run in runs if isinstance(run.get(k), (int, float))]`. -/
def numFieldValues (k : String) : List JVal → Except PyErr (List PyNum)
  | [] => .ok []
  | run :: rest => do
    let v ← pyGet run k
    let more ← numFieldValues k rest
    pure (if v.isNumLike then pynumOf v :: more else more)

/-- One `group_data` record of `_process_7zip_data` (the `*_values` list is
kept only for the metric the source stores raw). -/
structure SevenzipGroupData where
  group : Str
  threadCount : JVal
  runCount : ℕ
  elapsedSecondsMedian : Option ℚ
  elapsedSecondsValues : List PyNum
  compressionSpeedMedian : Option ℚ
  compressionRatioMedian : Option ℚ
  threadEfficiencyMedian : Option ℚ
  archiveSizeMedian : Option ℚ

/-- The aggregation `_process_7zip_data` performs for the thread group `t`:
collect the runs of all files, group by the `threads` key (dict grouping
collects, in order, exactly the runs whose key equals `t`), extract each
numeric metric and compute its median. -/
def sevenzipGroupData (dataList : List JVal) (t : JVal) :
    Except PyErr SevenzipGroupData := do
  let allRuns ← sevenzipAllRuns dataList
  let keyed ← sevenzipKeyedRuns allRuns
  let runs := (keyed.filter (fun p => pyEq p.1 t)).map (fun p => p.2)
  let elapsed ← numFieldValues "elapsed_seconds" runs
  let compSpeed ← numFieldValues "compression_speed_mb_s" runs
  let compRatio ← numFieldValues "compression_ratio" runs
  let threadEff ← numFieldValues "thread_efficiency_percent" runs
  let archiveSizes ← numFieldValues "archive_size_bytes" runs
  pure
    { group := pyStr t ++ lit "_threads", threadCount := t, runCount := runs.length,
      elapsedSecondsMedian := calculateMedian elapsed,
      elapsedSecondsValues := elapsed,
      compressionSpeedMedian := calculateMedian compSpeed,
      compressionRatioMedian := calculateMedian compRatio,
      threadEfficiencyMedian := calculateMedian threadEff,
      archiveSizeMedian := calculateMedian archiveSizes }

/-! ## Hardware table updates (`store_benchmark_run`, unified processor) -/

/-- One row of the `hardware` database table. -/
structure DbHardware where
  id : Str
  name : JVal
  manufacturer : JVal
  type : Str
  cores : JVal
  framework : JVal
  updatedAt : ℤ

/-- Row lookup by primary key, the model of
`select(Hardware).where(Hardware.id == ...)`. -/
def lookupHw (db : List DbHardware) (id : Str) : Option DbHardware :=
  db.find? (fun r => r.id == id)

/-- Effect of `StorageManager.store_benchmark_run` on the hardware table: for
each extracted entry, look the id up and insert a new row only when none
exists; an existing row is not modified in any field.  (The benchmark-run and
benchmark-file rows written by the same method live in other tables and do
not touch hardware rows.) -/
def storeBenchmarkRunHardware (db : List DbHardware) (entries : List StoredHardware) :
    List DbHardware :=
  entries.foldl (fun db e =>
    match lookupHw db e.id with
    | some _ => db
    | none =>
      db ++ [{ id := e.id, name := e.name, manufacturer := e.manufacturer,
               type := e.type, cores := e.cores, framework := e.framework,
               updatedAt := 0 }]) db

/-- One device of a unified upload (`meta.hardware` values). -/
structure UnifiedDevice where
  name : Str
  type : Str
  manufacturer : JVal
  cores : JVal
  framework : JVal

/-- Effect of `UnifiedStorageProcessor.process_unified_upload` on the
hardware table: per device, insert a new row when the id is unseen, else set
only `updated_at` on the existing row. -/
def processUnifiedUploadHardware (db : List DbHardware)
    (devices : List (Str × UnifiedDevice)) (timestamp : ℤ) : List DbHardware :=
  devices.foldl (fun db p =>
    match lookupHw db p.1 with
    | some _ => db.map (fun r => if r.id == p.1 then { r with updatedAt := timestamp } else r)
    | none =>
      db ++ [{ id := p.1, name := .str p.2.name, manufacturer := p.2.manufacturer,
               type := p.2.type, cores := p.2.cores, framework := p.2.framework,
               updatedAt := 0 }]) db

/-! ## Concrete payloads used by the claim theorems -/

/-- Llama payload whose only device run is typed `gpu` but carries no
`device_name` field. -/
def llamaMissingDeviceName : JVal :=
  .obj [("device_runs", .arr [.obj [("device_type", .str (lit "gpu"))]])]

/-- Blender payload whose only device entry is the comma-joined composite
name `RTX 3060 Ti, RTX 3060`. -/
def compositeBlenderPayload : JVal :=
  .obj [("device_runs", .arr [.obj
    [("device_name", .str (lit "RTX 3060 Ti, RTX 3060")),
     ("device_framework", .str (lit "OPTIX"))]])]

/-- GPU candidate with the generic name `AMD Radeon Graphics`. -/
def genericRadeonGpu : JVal :=
  .obj [("name", .str (lit "AMD Radeon Graphics")), ("type", .str (lit "gpu")),
    ("manufacturer", .str (lit "AMD")), ("framework", .str (lit "OpenCL"))]

/-- GPU candidate with the specific name `AMD Radeon 880M`. -/
def specificRadeonGpu : JVal :=
  .obj [("name", .str (lit "AMD Radeon 880M")), ("type", .str (lit "gpu")),
    ("manufacturer", .str (lit "AMD")), ("framework", .str (lit "OpenCL"))]

/-- Payload dict `{'results': {'results': None}}`, wrapped twice. -/
def doubleWrapped : JVal := .obj [("results", .obj [("results", .null)])]

/-! ## C2 -/

/-- C2: the claim says extraction never raises for a malformed payload.  The
code contradicts its stated failure policy: a llama `device_runs` entry of
type `gpu` without a `device_name` key hits the unguarded subscript
`device_run['device_name']` in `_extract_from_llama` and the `KeyError`
escapes `extract_hardware_info`, instead of the entry contributing zero
candidates. -/
theorem c2_extraction_raises_on_missing_device_name :
    extractHardwareInfo [("llama", llamaMissingDeviceName)] (.obj [])
      = .error (.keyError "device_name") := rfl

/-! ## C6 -/

/-- C6: an upload whose only GPU device entry is the comma-joined composite
string `RTX 3060 Ti, RTX 3060` (and nothing else) yields zero GPU hardware
entries: the composite entry is skipped by `_extract_from_blender`, not split
into guessed devices.  (The extraction still succeeds, returning only the
fallback CPU entry.) -/
theorem c6_composite_gpu_names_excluded :
    (extractHardwareInfo [("blender", compositeBlenderPayload)] (.obj [])).map
      (fun entries => entries.filter (fun e => e.type == lit "gpu")) = .ok [] := rfl

/-! ## C8 -/

/-- C8: consolidation of the generic `AMD Radeon Graphics` and the specific
`AMD Radeon 880M` (same manufacturer) returns the single specific entry in
either arrival order. -/
theorem c8_consolidation_keeps_more_specific :
    consolidateGpuEntries [genericRadeonGpu, specificRadeonGpu] = .ok [specificRadeonGpu] ∧
    consolidateGpuEntries [specificRadeonGpu, genericRadeonGpu] = .ok [specificRadeonGpu] :=
  ⟨rfl, rfl⟩

/-! ## C4 -/

/-- C4 counterexample: `unwrap` is not idempotent on every payload dict.  On
the double-wrapped `{'results': {'results': None}}` the first application
returns `{'results': None}` and the second application unwraps again. -/
theorem c4_unwrap_counterexample :
    ¬ ((unwrap doubleWrapped).bind unwrap = unwrap doubleWrapped) := by
  intro h
  have h1 : (unwrap doubleWrapped).bind unwrap = Except.ok JVal.null := rfl
  have h2 : unwrap doubleWrapped = Except.ok (JVal.obj [("results", JVal.null)]) := rfl
  rw [h1, h2] at h
  injection h with h3
  exact JVal.noConfusion h3

/-- Strings rebuilt from their character lists are themselves. -/
theorem strMk_lit (s : String) : String.mk (lit s) = s := rfl

/-- C4 (amended): `unwrap` on a dict returns the value under `results` when
the key is present and the dict unchanged otherwise; it is idempotent for
every dict payload that is not wrapped twice, i.e. whenever `results` is
absent or its value is itself a dict without a `results` key.  (The
counterexample above shows the double-wrapped case strictly unwraps one more
level per application.) -/
theorem c4_unwrap_projection_and_conditional_idempotence :
    (∀ (kvs : List (String × JVal)) (v : JVal),
      lookupKey kvs "results" = some v → unwrap (.obj kvs) = .ok v) ∧
    (∀ (kvs : List (String × JVal)),
      lookupKey kvs "results" = none → unwrap (.obj kvs) = .ok (.obj kvs)) ∧
    (∀ (kvs : List (String × JVal)),
      (lookupKey kvs "results" = none ∨
        ∃ inner, lookupKey kvs "results" = some (.obj inner) ∧
          lookupKey inner "results" = none) →
      (unwrap (.obj kvs)).bind unwrap = unwrap (.obj kvs)) := by
  have hsome : ∀ (kvs : List (String × JVal)) (v : JVal),
      lookupKey kvs "results" = some v → unwrap (.obj kvs) = .ok v := by
    intro kvs v h
    simp only [unwrap, pyIn, pyGetD, strMk_lit, h]
    rfl
  have hnone : ∀ (kvs : List (String × JVal)),
      lookupKey kvs "results" = none → unwrap (.obj kvs) = .ok (.obj kvs) := by
    intro kvs h
    simp only [unwrap, pyIn, pyGetD, strMk_lit, h]
    rfl
  refine ⟨hsome, hnone, ?_⟩
  intro kvs h
  rcases h with h | ⟨inner, h1, h2⟩
  · rw [hnone kvs h]
    show unwrap (.obj kvs) = _
    exact hnone kvs h
  · rw [hsome kvs _ h1]
    show unwrap (.obj inner) = _
    exact hnone inner h2

/-- C4 witness: the conditional idempotence applied to the singly wrapped
payload `{'results': {'runs': []}}`. -/
theorem c4_unwrap_witness :
    (unwrap (JVal.obj [("results", JVal.obj [("runs", JVal.arr [])])])).bind unwrap
      = unwrap (JVal.obj [("results", JVal.obj [("runs", JVal.arr [])])]) :=
  c4_unwrap_projection_and_conditional_idempotence.2.2
    [("results", JVal.obj [("runs", JVal.arr [])])]
    (Or.inr ⟨[("runs", JVal.arr [])], rfl, rfl⟩)

/-! ## C9 -/

/-- Rows already present survive an append unchanged under first-match
lookup. -/
theorem lookupHw_append {db : List DbHardware} {id : Str} {r : DbHardware}
    (h : lookupHw db id = some r) (rows : List DbHardware) :
    lookupHw (db ++ rows) id = some r := by
  simp only [lookupHw] at *
  rw [List.find?_append, h]
  rfl

/-- Existing rows are not modified in any field by the hardware-table pass of
`store_benchmark_run`. -/
theorem lookupHw_store {entries : List StoredHardware} :
    ∀ {db : List DbHardware} {id : Str} {r : DbHardware},
    lookupHw db id = some r →
    lookupHw (storeBenchmarkRunHardware db entries) id = some r := by
  induction entries with
  | nil => intro db id r h; exact h
  | cons e rest ih =>
    intro db id r h
    show lookupHw (List.foldl _ _ rest) id = some r
    cases hfind : lookupHw db e.id with
    | some _ =>
      have : storeBenchmarkRunHardware db (e :: rest)
          = storeBenchmarkRunHardware db rest := by
        simp [storeBenchmarkRunHardware, hfind]
      rw [show (List.foldl _ _ rest : List DbHardware)
          = storeBenchmarkRunHardware db rest from by
        simp [storeBenchmarkRunHardware, hfind]]
      exact ih h
    | none =>
      rw [show (List.foldl _ _ rest : List DbHardware)
          = storeBenchmarkRunHardware (db ++
            [{ id := e.id, name := e.name, manufacturer := e.manufacturer,
               type := e.type, cores := e.cores, framework := e.framework,
               updatedAt := 0 }]) rest from by
        simp [storeBenchmarkRunHardware, hfind]]
      exact ih (lookupHw_append h _)

/-- The `updated_at` assignment preserves the row id. -/
theorem tsUpdate_id (x : DbHardware) (hid : Str) (ts : ℤ) :
    ((if x.id == hid then { x with updatedAt := ts } else x) : DbHardware).id = x.id := by
  by_cases hc : x.id == hid <;> simp [hc]

/-- Unfolding of the row lookup at a cons cell. -/
theorem lookupHw_cons (a : DbHardware) (l : List DbHardware) (id : Str) :
    lookupHw (a :: l) id = if a.id == id then some a else lookupHw l id := by
  cases hc : (a.id == id) with
  | true => simp [lookupHw, hc]
  | false => simp [lookupHw, hc]

/-- Mapping an id-preserving row update commutes with first-match lookup. -/
theorem lookupHw_map_timestamp {id : Str} (hid : Str) (ts : ℤ) :
    ∀ {db : List DbHardware} {r : DbHardware},
    lookupHw db id = some r →
    lookupHw (db.map (fun x => if x.id == hid then { x with updatedAt := ts } else x)) id
      = some (if r.id == hid then { r with updatedAt := ts } else r) := by
  intro db
  induction db with
  | nil => intro r h; simp [lookupHw] at h
  | cons a rest ih =>
    intro r h
    rw [lookupHw_cons] at h
    rw [List.map_cons, lookupHw_cons, tsUpdate_id]
    cases hc : (a.id == id) with
    | true =>
      rw [hc, if_pos rfl] at h
      have har : a = r := by injection h
      subst har
      rw [if_pos rfl]
    | false =>
      rw [hc] at h
      simp only [Bool.false_eq_true, if_false] at h
      simp only [Bool.false_eq_true, if_false]
      exact ih h

/-- Existing rows keep `name`, `type`, `manufacturer`, `cores` and
`framework` across the hardware pass of the unified processor (only
`updated_at` may change). -/
theorem lookupHw_unified {devices : List (Str × UnifiedDevice)} {ts : ℤ} :
    ∀ {db : List DbHardware} {id : Str} {r : DbHardware},
    lookupHw db id = some r →
    ∃ r', lookupHw (processUnifiedUploadHardware db devices ts) id = some r' ∧
      r'.id = r.id ∧ r'.name = r.name ∧ r'.manufacturer = r.manufacturer ∧
      r'.type = r.type ∧ r'.cores = r.cores ∧ r'.framework = r.framework := by
  induction devices with
  | nil => intro db id r h; exact ⟨r, h, rfl, rfl, rfl, rfl, rfl, rfl⟩
  | cons p rest ih =>
    intro db id r h
    cases hfind : lookupHw db p.1 with
    | some _ =>
      have hstep : processUnifiedUploadHardware db (p :: rest) ts
          = processUnifiedUploadHardware
              (db.map (fun x => if x.id == p.1 then { x with updatedAt := ts } else x))
              rest ts := by
        simp [processUnifiedUploadHardware, hfind]
      rw [hstep]
      obtain ⟨r', hr', hrid, hname, hman, htype, hcores, hfw⟩ :=
        ih (lookupHw_map_timestamp p.1 ts h)
      refine ⟨r', hr', ?_, ?_, ?_, ?_, ?_, ?_⟩ <;>
        first
          | (rw [hrid]; by_cases hc : r.id == p.1 <;> simp [hc])
          | (rw [hname]; by_cases hc : r.id == p.1 <;> simp [hc])
          | (rw [hman]; by_cases hc : r.id == p.1 <;> simp [hc])
          | (rw [htype]; by_cases hc : r.id == p.1 <;> simp [hc])
          | (rw [hcores]; by_cases hc : r.id == p.1 <;> simp [hc])
          | (rw [hfw]; by_cases hc : r.id == p.1 <;> simp [hc])
    | none =>
      have hstep : processUnifiedUploadHardware db (p :: rest) ts
          = processUnifiedUploadHardware
              (db ++ [{ id := p.1, name := .str p.2.name, manufacturer := p.2.manufacturer,
                        type := p.2.type, cores := p.2.cores, framework := p.2.framework,
                        updatedAt := 0 }]) rest ts := by
        simp [processUnifiedUploadHardware, hfind]
      rw [hstep]
      exact ih (lookupHw_append h _)

/-- C9: when a hardware id already exists in storage, a new upload leaves the
stored record's `type`, `manufacturer`, `cores` and `framework` untouched,
and the stored `name` is never downgraded: `store_benchmark_run` leaves the
whole row unchanged (so in particular the name is replaced only when the new
candidate is more specific, vacuously), and the unified processor touches
only `updated_at`. -/
theorem c9_store_preserves_existing_hardware :
    (∀ (db : List DbHardware) (entries : List StoredHardware) (id : Str) (r : DbHardware),
      lookupHw db id = some r →
      ∃ r', lookupHw (storeBenchmarkRunHardware db entries) id = some r' ∧
        r'.manufacturer = r.manufacturer ∧ r'.type = r.type ∧
        r'.cores = r.cores ∧ r'.framework = r.framework ∧
        (r'.name = r.name ∨
          ∃ e ∈ entries, ∀ n n', r'.name = .str n → r.name = .str n' →
            isMoreSpecificGpuName n n' = true)) ∧
    (∀ (db : List DbHardware) (devices : List (Str × UnifiedDevice)) (ts : ℤ)
        (id : Str) (r : DbHardware),
      lookupHw db id = some r →
      ∃ r', lookupHw (processUnifiedUploadHardware db devices ts) id = some r' ∧
        r'.name = r.name ∧ r'.manufacturer = r.manufacturer ∧ r'.type = r.type ∧
        r'.cores = r.cores ∧ r'.framework = r.framework) := by
  constructor
  · intro db entries id r h
    exact ⟨r, lookupHw_store h, rfl, rfl, rfl, rfl, Or.inl rfl⟩
  · intro db devices ts id r h
    obtain ⟨r', hr', _, hname, hman, htype, hcores, hfw⟩ := lookupHw_unified h
    exact ⟨r', hr', hname, hman, htype, hcores, hfw⟩

/-- Concrete stored row for the C9 witness. -/
def dbRow880m : DbHardware :=
  { id := lit "amd-radeon-880m", name := .str (lit "AMD Radeon 880M"),
    manufacturer := .str (lit "AMD"), type := lit "gpu", cores := .null,
    framework := .str (lit "OpenCL"), updatedAt := 0 }

/-- Concrete new upload entry with the same id for the C9 witness. -/
def uploadEntry880m : StoredHardware :=
  { id := lit "amd-radeon-880m", name := .str (lit "AMD Radeon Graphics"),
    manufacturer := .str (lit "AMD"), type := lit "gpu", cores := .null,
    framework := .str (lit "Vulkan"), directoryPath := lit "gpu/amd-radeon-880m",
    benchmarkRuns := [], createdAt := 0, updatedAt := 0 }

/-- C9 witness: a concrete database row with an existing id survives the
store operation with all fields intact and its name not downgraded. -/
theorem c9_store_preserves_witness :
    ∃ r', lookupHw (storeBenchmarkRunHardware [dbRow880m] [uploadEntry880m])
        (lit "amd-radeon-880m") = some r' ∧
      r'.manufacturer = .str (lit "AMD") ∧ r'.type = lit "gpu" ∧
      r'.cores = .null ∧ r'.framework = .str (lit "OpenCL") ∧
      (r'.name = .str (lit "AMD Radeon 880M") ∨
        ∃ e ∈ [uploadEntry880m],
          ∀ n n', r'.name = .str n → JVal.str (lit "AMD Radeon 880M") = JVal.str n' →
            isMoreSpecificGpuName n n' = true) := by
  obtain ⟨r', hr', hman, htype, hcores, hfw, hname⟩ :=
    c9_store_preserves_existing_hardware.1 [dbRow880m] [uploadEntry880m]
      (lit "amd-radeon-880m") dbRow880m rfl
  exact ⟨r', hr', hman, htype, hcores, hfw, hname⟩

/-! ## C1 -/

/-- The numeric values surviving the filter of
`StorageManager._calculate_median` (drop `None`, drop NaN). -/
def medianSurvivors (values : List PyNum) : List ℚ :=
  values.filterMap (fun v =>
    match v with
    | .num q => some q
    | .nan => none
    | .none => none)

/-- The internal filter of `calculateMedian` is `medianSurvivors`. -/
theorem calculateMedian_eq_survivors (values : List PyNum) :
    calculateMedian values =
      (if values.isEmpty then none
       else
        let numericValues := medianSurvivors values
        if numericValues.isEmpty then none
        else
          let sortedValues := List.insertionSort (· ≤ ·) numericValues
          let n := sortedValues.length
          if n % 2 = 0 then
            some ((sortedValues.getD (n / 2 - 1) 0 + sortedValues.getD (n / 2) 0) / 2)
          else some (sortedValues.getD (n / 2) 0)) := rfl

/-- The median of the `StorageManager` depends only on the multiset of its
input values. -/
theorem calculateMedian_eq_of_perm {vs vs' : List PyNum} (h : vs.Perm vs') :
    calculateMedian vs = calculateMedian vs' := by
  rw [calculateMedian_eq_survivors, calculateMedian_eq_survivors]
  have hp : (medianSurvivors vs).Perm (medianSurvivors vs') := h.filterMap _
  rcases vs with _ | ⟨v, vs0⟩
  · have : vs' = [] := List.Perm.eq_nil h.symm
    subst this
    rfl
  · rcases vs' with _ | ⟨v', vs0'⟩
    · exact absurd h.symm (by simp)
    · simp only [List.isEmpty_cons]
      have hsort : List.insertionSort (· ≤ ·) (medianSurvivors (v :: vs0))
          = List.insertionSort (· ≤ ·) (medianSurvivors (v' :: vs0')) := by
        refine List.eq_of_perm_of_sorted ?_ (List.sorted_insertionSort _ _)
          (List.sorted_insertionSort _ _)
        exact ((List.perm_insertionSort _ _).trans hp).trans
          (List.perm_insertionSort _ _).symm
      have hemp : (medianSurvivors (v :: vs0)).isEmpty
          = (medianSurvivors (v' :: vs0')).isEmpty := by
        rcases hni : medianSurvivors (v :: vs0) with _ | _
        · have h0 : medianSurvivors (v' :: vs0') = [] :=
            List.Perm.eq_nil (by rw [hni] at hp; exact hp.symm)
          rw [h0]
        · rcases hni' : medianSurvivors (v' :: vs0') with _ | _
          · exact absurd (hni' ▸ hp) (by simp [hni])
          · rfl
      rw [hsort, hemp]

/-- C1 counterexample: the claim asserts the median used by aggregation
returns null/absent when no numeric value survives, but
`SimplifiedStorageManager._calculate_median` (one of its two cited
implementations) returns the number `0.0` for an empty list and for an
all-`None` list, while the `StorageManager` version returns `None`. -/
theorem c1_median_counterexample :
    simplifiedCalculateMedian [] = 0 ∧
    simplifiedCalculateMedian [Option.none, Option.none] = 0 ∧
    calculateMedian [] = Option.none := ⟨rfl, rfl, rfl⟩

/-- C1 (amended): `StorageManager._calculate_median` discards non-numeric
entries (null and NaN), returns null when nothing survives, and otherwise
returns the middle element of the ascending sort for an odd count and the
mean of the two middle elements for an even count; `[1,2,3]` yields `2` and
`[1,2,3,4]` yields `2.5`.  `SimplifiedStorageManager._calculate_median`
agrees on the sorted middle/mean rule but returns `0.0`, not null, when no
numeric value survives. -/
theorem c1_median_amended :
    (∀ vs : List PyNum, medianSurvivors vs = [] → calculateMedian vs = none) ∧
    (∀ (vs : List PyNum) (l : List ℚ), l.Perm (medianSurvivors vs) →
      l.Sorted (· ≤ ·) → l ≠ [] →
      calculateMedian vs =
        some (if l.length % 2 = 0 then (l.getD (l.length / 2 - 1) 0 + l.getD (l.length / 2) 0) / 2
          else l.getD (l.length / 2) 0)) ∧
    calculateMedian [.num 1, .num 2, .num 3] = some 2 ∧
    calculateMedian [.num 1, .num 2, .num 3, .num 4] = some (5 / 2) ∧
    calculateMedian [] = none ∧
    calculateMedian [.none, .none] = none ∧
    (∀ vs : List (Option ℚ), vs.filterMap id = [] → simplifiedCalculateMedian vs = 0) ∧
    simplifiedCalculateMedian [some 1, some 2, some 3] = 2 ∧
    simplifiedCalculateMedian [some 1, some 2, some 3, some 4] = 5 / 2 := by
  refine ⟨?_, ?_, rfl, ?_, rfl, rfl, ?_, rfl, ?_⟩
  · intro vs hs
    rw [calculateMedian_eq_survivors, hs]
    rcases vs with _ | _ <;> simp
  · intro vs l hperm hsorted hne
    rw [calculateMedian_eq_survivors]
    have hsne : medianSurvivors vs ≠ [] := by
      intro hc
      exact hne (List.Perm.eq_nil (hc ▸ hperm))
    have hvne : vs.isEmpty = false := by
      rcases vs with _ | _
      · exact absurd rfl hsne
      · rfl
    have hsort : List.insertionSort (· ≤ ·) (medianSurvivors vs) = l := by
      refine List.eq_of_perm_of_sorted ?_ (List.sorted_insertionSort _ _) hsorted
      exact (List.perm_insertionSort _ _).trans hperm.symm
    rw [hvne]
    simp only [Bool.false_eq_true, if_false]
    rw [show (medianSurvivors vs).isEmpty = false from by
      rcases hni : medianSurvivors vs with _ | _
      · exact absurd hni hsne
      · rfl]
    simp only [Bool.false_eq_true, if_false]
    rw [hsort]
    split <;> rfl
  · have h : calculateMedian [.num 1, .num 2, .num 3, .num 4]
        = some (((2 : ℚ) + 3) / 2) := rfl
    rw [h]
    norm_num
  · intro vs hs
    rcases vs with _ | ⟨v, vs0⟩
    · rfl
    · simp [simplifiedCalculateMedian, hs]
  · have h : simplifiedCalculateMedian [some 1, some 2, some 3, some 4]
        = ((2 : ℚ) + 3) / 2 := rfl
    rw [h]
    norm_num

/-- C1 witness: the sorted-characterization of the amended claim applied to
the concrete input `[3, None, 1, NaN, 2]`, whose survivors sort to
`[1, 2, 3]` with median `2`. -/
theorem c1_median_witness :
    calculateMedian [.num 3, .none, .num 1, .nan, .num 2] = some 2 := by
  have h := c1_median_amended.2.1 [.num 3, .none, .num 1, .nan, .num 2]
    [1, 2, 3] (by decide) (by norm_num) (by decide)
  rw [h]
  rfl

/-! ## C10 -/

/-- Bind of a success in the error monad. -/
theorem exBind_ok {α β : Type} (a : α) (f : α → Except PyErr β) :
    (Except.ok a >>= f) = f a := rfl

/-- Bind of an error in the error monad. -/
theorem exBind_error {α β : Type} (e : PyErr) (f : α → Except PyErr β) :
    ((Except.error e : Except PyErr α) >>= f) = Except.error e := rfl

/-- The grouping pass distributes over list append. -/
theorem sevenzipKeyedRuns_append (xs ys : List JVal) :
    sevenzipKeyedRuns (xs ++ ys) =
      sevenzipKeyedRuns xs >>= fun a =>
        sevenzipKeyedRuns ys >>= fun b => pure (a ++ b) := by
  induction xs with
  | nil =>
    cases h : sevenzipKeyedRuns ys <;>
      simp [sevenzipKeyedRuns, h, exBind_ok, exBind_error]
  | cons x xs ih =>
    cases hk : runThreadsKey x with
    | error e => simp [sevenzipKeyedRuns, hk, exBind_error]
    | ok t =>
      cases h1 : sevenzipKeyedRuns xs <;> cases h2 : sevenzipKeyedRuns ys <;>
        simp_all [sevenzipKeyedRuns, hk, exBind_ok, exBind_error]

/-- The metric comprehension distributes over list append. -/
theorem numFieldValues_append (k : String) (xs ys : List JVal) :
    numFieldValues k (xs ++ ys) =
      numFieldValues k xs >>= fun a =>
        numFieldValues k ys >>= fun b => pure (a ++ b) := by
  induction xs with
  | nil =>
    cases h : numFieldValues k ys <;>
      simp [numFieldValues, h, exBind_ok, exBind_error]
  | cons x xs ih =>
    cases hg : pyGet x k with
    | error e => simp [numFieldValues, hg, exBind_error]
    | ok v =>
      cases h1 : numFieldValues k xs <;> cases h2 : numFieldValues k ys <;>
        simp_all [numFieldValues, hg, exBind_ok, exBind_error]
      split <;> simp

/-- A successful metric extraction over an append splits, and the swapped
append also succeeds with the pieces swapped. -/
theorem numFieldValues_swap {k : String} {xs ys : List JVal} {v : List PyNum}
    (h : numFieldValues k (xs ++ ys) = .ok v) :
    ∃ va vb, v = va ++ vb ∧ numFieldValues k (ys ++ xs) = .ok (vb ++ va) := by
  rw [numFieldValues_append] at h
  rw [numFieldValues_append]
  cases h1 : numFieldValues k xs with
  | error e => rw [h1, exBind_error] at h; exact absurd h (by simp)
  | ok va =>
    cases h2 : numFieldValues k ys with
    | error e => rw [h1, h2] at h; exact absurd h (by simp [exBind_ok, exBind_error])
    | ok vb =>
      rw [h1, h2] at h
      simp only [exBind_ok] at h
      refine ⟨va, vb, ?_, ?_⟩
      · injection h with h'
        exact h'.symm
      · rfl

/-- C10: the 7zip aggregation is order-independent across uploaded files:
the per-thread-group medians and run counts computed from files `[A, B]`
equal those computed from `[B, A]` for every group key, because the median
depends only on the multiset of surviving numeric values. -/
theorem c10_sevenzip_aggregation_order_independent :
    (∀ vs vs' : List PyNum, vs.Perm vs' → calculateMedian vs = calculateMedian vs') ∧
    (∀ (A B t : JVal) (g : SevenzipGroupData),
      sevenzipGroupData [A, B] t = .ok g →
      ∃ g', sevenzipGroupData [B, A] t = .ok g' ∧
        g'.group = g.group ∧ g'.runCount = g.runCount ∧
        g'.elapsedSecondsMedian = g.elapsedSecondsMedian ∧
        g'.compressionSpeedMedian = g.compressionSpeedMedian ∧
        g'.compressionRatioMedian = g.compressionRatioMedian ∧
        g'.threadEfficiencyMedian = g.threadEfficiencyMedian ∧
        g'.archiveSizeMedian = g.archiveSizeMedian) := by
  refine ⟨fun vs vs' h => calculateMedian_eq_of_perm h, ?_⟩
  intro A B t g h
  unfold sevenzipGroupData at h ⊢
  cases hA : sevenzipRunsOfFile A with
  | error e =>
    rw [show sevenzipAllRuns [A, B] = .error e from by
      simp [sevenzipAllRuns, hA, exBind_error]] at h
    exact absurd h (by simp [exBind_error])
  | ok ra =>
    cases hB : sevenzipRunsOfFile B with
    | error e =>
      rw [show sevenzipAllRuns [A, B] = .error e from by
        simp [sevenzipAllRuns, hA, hB, exBind_ok, exBind_error]] at h
      exact absurd h (by simp [exBind_error])
    | ok rb =>
      rw [show sevenzipAllRuns [A, B] = .ok (ra ++ rb) from by
        simp [sevenzipAllRuns, hA, hB, exBind_ok]] at h
      rw [show sevenzipAllRuns [B, A] = .ok (rb ++ ra) from by
        simp [sevenzipAllRuns, hA, hB, exBind_ok]]
      rw [exBind_ok] at h
      rw [exBind_ok]
      cases hK : sevenzipKeyedRuns (ra ++ rb) with
      | error e =>
        rw [hK, exBind_error] at h
        exact absurd h (by simp)
      | ok keyed =>
        rw [hK, exBind_ok] at h
        have hKsplit := sevenzipKeyedRuns_append ra rb
        rw [hK] at hKsplit
        cases hKa : sevenzipKeyedRuns ra with
        | error e =>
          rw [hKa, exBind_error] at hKsplit
          exact absurd hKsplit (by simp)
        | ok ka =>
          cases hKb : sevenzipKeyedRuns rb with
          | error e =>
            rw [hKa] at hKsplit
            simp only [exBind_ok, hKb, exBind_error] at hKsplit
            exact absurd hKsplit (by simp)
          | ok kb =>
            rw [hKa, hKb] at hKsplit
            simp only [exBind_ok] at hKsplit
            have hkeyed : keyed = ka ++ kb :=
              Except.ok.inj (hKsplit.trans rfl)
            subst hkeyed
            rw [show sevenzipKeyedRuns (rb ++ ra) = .ok (kb ++ ka) from by
              rw [sevenzipKeyedRuns_append, hKa, hKb]; rfl]
            rw [exBind_ok]
            simp only [] at h ⊢
            rw [show ((ka ++ kb).filter (fun p => pyEq p.1 t)).map (fun p => p.2)
                = (ka.filter (fun p => pyEq p.1 t)).map (fun p => p.2)
                  ++ (kb.filter (fun p => pyEq p.1 t)).map (fun p => p.2) from by
              rw [List.filter_append, List.map_append]] at h
            rw [show ((kb ++ ka).filter (fun p => pyEq p.1 t)).map (fun p => p.2)
                = (kb.filter (fun p => pyEq p.1 t)).map (fun p => p.2)
                  ++ (ka.filter (fun p => pyEq p.1 t)).map (fun p => p.2) from by
              rw [List.filter_append, List.map_append]]
            set rA := (ka.filter (fun p => pyEq p.1 t)).map (fun p => p.2) with hrA
            set rB := (kb.filter (fun p => pyEq p.1 t)).map (fun p => p.2) with hrB
            cases hE1 : numFieldValues "elapsed_seconds" (rA ++ rB) with
            | error e => rw [hE1, exBind_error] at h; exact absurd h (by simp)
            | ok v1 =>
              cases hE2 : numFieldValues "compression_speed_mb_s" (rA ++ rB) with
              | error e =>
                rw [hE1, exBind_ok, hE2, exBind_error] at h
                exact absurd h (by simp)
              | ok v2 =>
                cases hE3 : numFieldValues "compression_ratio" (rA ++ rB) with
                | error e =>
                  rw [hE1, exBind_ok, hE2, exBind_ok, hE3, exBind_error] at h
                  exact absurd h (by simp)
                | ok v3 =>
                  cases hE4 : numFieldValues "thread_efficiency_percent" (rA ++ rB) with
                  | error e =>
                    rw [hE1, exBind_ok, hE2, exBind_ok, hE3, exBind_ok, hE4,
                      exBind_error] at h
                    exact absurd h (by simp)
                  | ok v4 =>
                    cases hE5 : numFieldValues "archive_size_bytes" (rA ++ rB) with
                    | error e =>
                      rw [hE1, exBind_ok, hE2, exBind_ok, hE3, exBind_ok, hE4,
                        exBind_ok, hE5, exBind_error] at h
                      exact absurd h (by simp)
                    | ok v5 =>
                      rw [hE1, exBind_ok, hE2, exBind_ok, hE3, exBind_ok, hE4,
                        exBind_ok, hE5, exBind_ok] at h
                      obtain ⟨va1, vb1, hv1, hs1⟩ := numFieldValues_swap hE1
                      obtain ⟨va2, vb2, hv2, hs2⟩ := numFieldValues_swap hE2
                      obtain ⟨va3, vb3, hv3, hs3⟩ := numFieldValues_swap hE3
                      obtain ⟨va4, vb4, hv4, hs4⟩ := numFieldValues_swap hE4
                      obtain ⟨va5, vb5, hv5, hs5⟩ := numFieldValues_swap hE5
                      rw [hs1, exBind_ok, hs2, exBind_ok, hs3, exBind_ok, hs4,
                        exBind_ok, hs5, exBind_ok]
                      injection h with hrec
                      subst hrec
                      refine ⟨_, rfl, rfl, ?_, ?_, ?_, ?_, ?_, ?_⟩
                      · show (rB ++ rA).length = (rA ++ rB).length
                        simp [Nat.add_comm]
                      · show calculateMedian (vb1 ++ va1) = calculateMedian v1
                        rw [hv1]
                        exact calculateMedian_eq_of_perm List.perm_append_comm
                      · show calculateMedian (vb2 ++ va2) = calculateMedian v2
                        rw [hv2]
                        exact calculateMedian_eq_of_perm List.perm_append_comm
                      · show calculateMedian (vb3 ++ va3) = calculateMedian v3
                        rw [hv3]
                        exact calculateMedian_eq_of_perm List.perm_append_comm
                      · show calculateMedian (vb4 ++ va4) = calculateMedian v4
                        rw [hv4]
                        exact calculateMedian_eq_of_perm List.perm_append_comm
                      · show calculateMedian (vb5 ++ va5) = calculateMedian v5
                        rw [hv5]
                        exact calculateMedian_eq_of_perm List.perm_append_comm

/-- Concrete 7zip payload file with one run at four threads. -/
def szFileA : JVal :=
  .obj [("runs", .arr [.obj [("threads", .num 4), ("elapsed_seconds", .num 10)]])]

/-- Concrete 7zip payload file with two runs at four threads. -/
def szFileB : JVal :=
  .obj [("runs", .arr
    [.obj [("threads", .num 4), ("elapsed_seconds", .num 20)],
     .obj [("threads", .num 4), ("elapsed_seconds", .num 30)]])]

/-- C10 witness: aggregating the two concrete files in either order yields
the same thread-4 group, with run count 3 and elapsed median 20. -/
theorem c10_sevenzip_witness :
    ∃ g', sevenzipGroupData [szFileB, szFileA] (JVal.num 4) = .ok g' ∧
      g'.runCount = 3 ∧ g'.elapsedSecondsMedian = some 20 := by
  obtain ⟨g', hg', _, hrc, h1, _, _, _, _⟩ :=
    c10_sevenzip_aggregation_order_independent.2 szFileA szFileB (JVal.num 4) _ rfl
  refine ⟨g', hg', ?_, ?_⟩
  · rw [hrc]
    rfl
  · rw [h1]
    rfl

/-! ## C7 -/

/-- C7: device classification follows the claimed rule order.  (1) A string
framework hint that lower-cases to `cpu` forces CPU classification for every
device name, and (2) a name containing any strong CPU family token (`ryzen`,
`xeon`, `celeron`, `pentium`, `threadripper`, `epyc`, case-insensitively) is
classified as CPU for every framework value, even when the name also
contains a GPU-sounding word such as `radeon graphics`. -/
theorem c7_cpu_classification_rule_order :
    (∀ (name : JVal) (f : Str), pyLower f = lit "cpu" →
      isCpuDevice name (.str f) = true) ∧
    (∀ (name : Str) (framework : JVal) (tok : Str),
      tok ∈ [lit "ryzen", lit "xeon", lit "celeron", lit "pentium",
        lit "threadripper", lit "epyc"] →
      isSub tok (pyLower name) = true →
      isCpuDevice (.str name) framework = true) := by
  constructor
  · intro name f hf
    have hne : f.isEmpty = false := by
      rcases f with _ | _
      · exact absurd hf (by decide)
      · rfl
    cases name <;> simp [isCpuDevice, hne, hf]
  · intro name framework tok htok hsub
    have h2 : ([lit "ryzen", lit "xeon", lit "celeron", lit "pentium",
        lit "threadripper", lit "epyc"].any (fun k => isSub k (pyLower name))) = true :=
      List.any_eq_true.mpr ⟨tok, htok, hsub⟩
    cases framework <;> simp [isCpuDevice, h2]

/-- C7 witness: the hint rule applied to a GPU-sounding name with hint
`CPU`, and the strong-token rule applied to a Ryzen CPU name embedding
`Radeon Graphics`. -/
theorem c7_cpu_classification_witness :
    isCpuDevice (.str (lit "AMD Radeon 880M")) (.str (lit "CPU")) = true ∧
    isCpuDevice (.str (lit "AMD Ryzen AI 9 365 w/ Radeon Graphics")) .null = true := by
  constructor
  · exact c7_cpu_classification_rule_order.1 (.str (lit "AMD Radeon 880M"))
      (lit "CPU") (by decide)
  · exact c7_cpu_classification_rule_order.2
      (lit "AMD Ryzen AI 9 365 w/ Radeon Graphics") .null (lit "ryzen")
      (by decide) (by decide)

/-! ## C3: character-level lemmas -/

/-- Lowercasing fixes non-uppercase characters. -/
theorem pyToLower_eq_self {c : Char} (h : isUpperChar c = false) : pyToLower c = c := by
  unfold pyToLower
  rw [if_neg]
  intro hc
  simp [isUpperChar] at h
  omega

/-- Lowercasing an uppercase character adds 32 to its code point. -/
theorem toNat_pyToLower_of_upper {c : Char} (h : isUpperChar c = true) :
    (pyToLower c).toNat = c.toNat + 32 := by
  have hc : 65 ≤ c.toNat ∧ c.toNat ≤ 90 := by
    simpa [isUpperChar] using h
  unfold pyToLower
  rw [if_pos hc]
  unfold Char.ofNat
  have hv : (c.toNat + 32).isValidChar := Or.inl (by omega)
  simp only [hv, dif_pos]
  rfl

/-- Lowercased characters are never uppercase. -/
theorem isUpperChar_pyToLower (c : Char) : isUpperChar (pyToLower c) = false := by
  cases h : isUpperChar c with
  | false => rw [pyToLower_eq_self h]; exact h
  | true =>
    have ht := toNat_pyToLower_of_upper h
    have hc : 65 ≤ c.toNat ∧ c.toNat ≤ 90 := by simpa [isUpperChar] using h
    simp [isUpperChar, ht]
    omega

/-- Characters of a lowercased string are never uppercase. -/
theorem mem_pyLower_not_upper {s : Str} {c : Char} (h : c ∈ pyLower s) :
    isUpperChar c = false := by
  rcases List.mem_map.mp h with ⟨a, _, rfl⟩
  exact isUpperChar_pyToLower a

/-- Lowercasing fixes strings without uppercase characters. -/
theorem pyLower_eq_self {s : Str} (h : ∀ c ∈ s, isUpperChar c = false) :
    pyLower s = s := by
  unfold pyLower
  induction s with
  | nil => rfl
  | cons a rest ih =>
    rw [List.map_cons, pyToLower_eq_self (h a (by simp)), ih]
    intro c hc
    exact h c (by simp [hc])

/-- A `dropWhile` over a predicate false everywhere is the identity. -/
theorem dropWhile_eq_self_of_all {q : Char → Bool} {s : Str}
    (h : ∀ c ∈ s, q c = false) : s.dropWhile q = s := by
  cases s with
  | nil => rfl
  | cons a rest =>
    rw [List.dropWhile_cons, h a (by simp)]
    simp

/-- The trailing-run drop is Mathlib's `rdropWhile`. -/
theorem dropTrailing_eq_rdropWhile (q : Char → Bool) (s : Str) :
    dropTrailing q s = s.rdropWhile q := rfl

/-- Python `strip()` fixes whitespace-free strings. -/
theorem pyStrip_eq_self {s : Str} (h : ∀ c ∈ s, isWsChar c = false) :
    pyStrip s = s := by
  unfold pyStrip
  rw [dropWhile_eq_self_of_all h, dropTrailing_eq_rdropWhile,
    List.rdropWhile_eq_self_iff.mpr ?_]
  intro hl hp
  rw [h _ (List.getLast_mem hl)] at hp
  exact Bool.false_ne_true hp

/-- Characters of a run-substitution output are non-matching input
characters or the replacement character. -/
theorem mem_subRunsAux {p : Char → Bool} {rep : Char} :
    ∀ {l : Str} {b : Bool} {c : Char}, c ∈ subRunsAux p rep l b →
      (p c = false ∧ c ∈ l) ∨ c = rep := by
  intro l
  induction l with
  | nil => intro b c h; simp [subRunsAux] at h
  | cons a rest ih =>
    intro b c h
    unfold subRunsAux at h
    by_cases hp : p a = true
    · rw [if_pos hp] at h
      cases b with
      | true =>
        rw [if_pos rfl] at h
        rcases ih h with ⟨h1, h2⟩ | h3
        · exact Or.inl ⟨h1, by simp [h2]⟩
        · exact Or.inr h3
      | false =>
        rw [if_neg (by simp)] at h
        rcases List.mem_cons.mp h with rfl | h'
        · exact Or.inr rfl
        · rcases ih h' with ⟨h1, h2⟩ | h3
          · exact Or.inl ⟨h1, by simp [h2]⟩
          · exact Or.inr h3
    · rw [if_neg hp] at h
      rcases List.mem_cons.mp h with rfl | h'
      · exact Or.inl ⟨by simpa using hp, by simp⟩
      · rcases ih h' with ⟨h1, h2⟩ | h3
        · exact Or.inl ⟨h1, by simp [h2]⟩
        · exact Or.inr h3

/-- Inside a run, the next emitted character never matches `p`. -/
theorem headNot_subRunsAux {p : Char → Bool} {rep : Char} :
    ∀ (l : Str), ∀ y ∈ (subRunsAux p rep l true).head?, p y = false := by
  intro l
  induction l with
  | nil => intro y h; simp [subRunsAux] at h
  | cons a rest ih =>
    intro y h
    unfold subRunsAux at h
    by_cases hp : p a = true
    · rw [if_pos hp, if_pos rfl] at h
      exact ih y h
    · rw [if_neg hp] at h
      simp at h
      subst h
      simpa using hp

/-- A run-substitution output never contains two adjacent matching
characters. -/
theorem chain'_subRunsAux {p : Char → Bool} {rep : Char} :
    ∀ (l : Str) (b : Bool),
      List.Chain' (fun a c => ¬(p a = true ∧ p c = true)) (subRunsAux p rep l b) := by
  intro l
  induction l with
  | nil => intro b; simp [subRunsAux]
  | cons a rest ih =>
    intro b
    unfold subRunsAux
    by_cases hp : p a = true
    · rw [if_pos hp]
      cases b with
      | true =>
        rw [if_pos rfl]
        exact ih true
      | false =>
        rw [if_neg (by simp)]
        rw [List.chain'_cons']
        refine ⟨?_, ih true⟩
        intro y hy hcon
        have hyp := headNot_subRunsAux rest y hy
        rw [hyp] at hcon
        exact Bool.false_ne_true hcon.2
    · rw [if_neg hp]
      rw [List.chain'_cons']
      refine ⟨?_, ih _⟩
      intro y hy hcon
      exact hp hcon.1

/-- When the head does not match `p`, the in-run and out-of-run states of the
substitution agree. -/
theorem subRunsAux_true_eq_false {p : Char → Bool} {rep : Char} {l : Str}
    (h : ∀ y ∈ l.head?, p y = false) :
    subRunsAux p rep l true = subRunsAux p rep l false := by
  cases l with
  | nil => rfl
  | cons a rest =>
    have ha : p a = false := h a (by simp)
    unfold subRunsAux
    rw [if_neg (by simp [ha]), if_neg (by simp [ha])]

/-- Run substitution is the identity on strings whose matching characters are
exactly isolated copies of the replacement character. -/
theorem subRunsAux_eq_self {p : Char → Bool} {rep : Char} :
    ∀ {l : Str}, (∀ c ∈ l, p c = false ∨ c = rep) →
      List.Chain' (fun a c => ¬(p a = true ∧ p c = true)) l →
      subRunsAux p rep l false = l := by
  intro l
  induction l with
  | nil => intro _ _; rfl
  | cons a rest ih =>
    intro hchars hadj
    unfold subRunsAux
    by_cases hp : p a = true
    · have ha : a = rep := by
        rcases hchars a (by simp) with h | h
        · exact absurd hp (by simp [h])
        · exact h
      rw [if_pos hp, if_neg (by simp)]
      have hhead : ∀ y ∈ rest.head?, p y = false := by
        intro y hy
        have hr := (List.chain'_cons'.mp hadj).1 y hy
        cases hpy : p y with
        | false => rfl
        | true => exact absurd ⟨hp, hpy⟩ hr
      rw [subRunsAux_true_eq_false hhead, ha,
        ih (fun c hc => hchars c (by simp [hc])) (List.Chain'.tail hadj)]
    · rw [if_neg hp,
        ih (fun c hc => hchars c (by simp [hc])) (List.Chain'.tail hadj)]

/-- A chain can be weakened using membership of its elements. -/
theorem chain'_mono_mem {R S : Char → Char → Prop} :
    ∀ {l : Str}, List.Chain' R l → (∀ a b, a ∈ l → b ∈ l → R a b → S a b) →
      List.Chain' S l := by
  intro l
  induction l with
  | nil => intro _ _; simp
  | cons a rest ih =>
    intro hc hm
    rw [List.chain'_cons'] at hc ⊢
    refine ⟨?_, ih hc.2 ?_⟩
    · intro y hy
      have hym : y ∈ rest := List.mem_of_mem_head? hy
      exact hm a y (by simp) (by simp [hym]) (hc.1 y hy)
    · intro x y hx hy
      exact hm x y (by simp [hx]) (by simp [hy])

/-! ## C3: strip lemmas and normal forms -/

/-- Stripping a character yields an infix of the original string. -/
theorem pyStripChar_inside (c : Char) (s : Str) : pyStripChar c s <:+: s := by
  unfold pyStripChar
  have h1 : dropTrailing (· == c) (s.dropWhile (· == c)) <+: s.dropWhile (· == c) := by
    rw [dropTrailing_eq_rdropWhile]
    exact List.rdropWhile_prefix _ _
  exact h1.isInfix.trans (List.dropWhile_suffix _).isInfix

/-- The head of a stripped string is not the stripped character. -/
theorem pyStripChar_head (c : Char) (s : Str) :
    ∀ y ∈ (pyStripChar c s).head?, (y == c) = false := by
  intro y hy
  unfold pyStripChar at hy
  have hpre : dropTrailing (· == c) (s.dropWhile (· == c)) <+: s.dropWhile (· == c) := by
    rw [dropTrailing_eq_rdropWhile]
    exact List.rdropWhile_prefix _ _
  obtain ⟨t, ht⟩ := hpre
  cases hr : dropTrailing (· == c) (s.dropWhile (· == c)) with
  | nil => rw [hr] at hy; simp at hy
  | cons z zs =>
    rw [hr] at hy
    simp at hy
    subst hy
    rw [hr] at ht
    have hh := List.head?_dropWhile_not (· == c) s
    rw [← ht] at hh
    simpa using hh

/-- The last character of a stripped string is not the stripped character. -/
theorem pyStripChar_last (c : Char) (s : Str) :
    ∀ y ∈ (pyStripChar c s).reverse.head?, (y == c) = false := by
  intro y hy
  unfold pyStripChar at hy
  rw [show (dropTrailing (· == c) (s.dropWhile (· == c))).reverse
      = (s.dropWhile (· == c)).reverse.dropWhile (· == c) from by
    unfold dropTrailing
    rw [List.reverse_reverse]] at hy
  have hh := List.head?_dropWhile_not (· == c) (s.dropWhile (· == c)).reverse
  cases hr : ((s.dropWhile (· == c)).reverse.dropWhile (· == c)).head? with
  | none => rw [hr] at hy; simp at hy
  | some z =>
    rw [hr] at hy
    simp at hy
    subst hy
    rw [hr] at hh
    exact hh

/-- Stripping fixes a string that neither starts nor ends with the
character. -/
theorem pyStripChar_eq_self {c : Char} {r : Str}
    (hh : ∀ y ∈ r.head?, (y == c) = false)
    (hl : ∀ y ∈ r.reverse.head?, (y == c) = false) : pyStripChar c r = r := by
  unfold pyStripChar
  have h1 : r.dropWhile (· == c) = r := by
    cases r with
    | nil => rfl
    | cons a rest =>
      rw [List.dropWhile_cons, hh a (by simp)]
      simp
  rw [h1, dropTrailing_eq_rdropWhile, List.rdropWhile_eq_self_iff.mpr ?_]
  intro hne2 hp
  have hm : r.getLast hne2 ∈ r.reverse.head? := by
    rw [List.head?_reverse]
    exact List.getLast?_eq_getLast r hne2 ▸ rfl
  rw [hl (r.getLast hne2) hm] at hp
  exact Bool.false_ne_true hp

/-- Normal form produced by `slugify`: lowercase alphanumerics with isolated
dashes, neither leading nor trailing. -/
def SlugGood (r : Str) : Prop :=
  r ≠ [] ∧ (∀ c ∈ r, isLowerAlnum c = true ∨ c = '-') ∧
  List.Chain' (fun a b => ¬(a = '-' ∧ b = '-')) r ∧
  (∀ y ∈ r.head?, y ≠ '-') ∧ (∀ y ∈ r.reverse.head?, y ≠ '-')

/-- Every `slugify` output is `unknown` or in normal form. -/
theorem slugify_good (name : Str) :
    slugify name = lit "unknown" ∨ SlugGood (slugify name) := by
  unfold slugify
  by_cases hne : name.isEmpty = true
  · rw [if_pos hne]
    exact Or.inl rfl
  · rw [if_neg hne]
    simp only []
    by_cases hse : (pyStripChar '-' (subRuns (· == '-') '-'
        (subRuns (fun c => !(isLowerAlnum c)) '-' (pyLower (pyStrip name))))).isEmpty = true
    · rw [if_pos hse]
      exact Or.inl rfl
    · rw [if_neg hse]
      refine Or.inr ⟨?_, ?_, ?_, ?_, ?_⟩
      · intro hc
        rw [hc] at hse
        exact hse rfl
      · intro ch hc
        have hc3 := (pyStripChar_inside '-' _).subset hc
        rcases mem_subRunsAux hc3 with ⟨_, hc2⟩ | hrep
        · rcases mem_subRunsAux hc2 with ⟨hp1, _⟩ | hrep
          · exact Or.inl (by simpa using hp1)
          · exact Or.inr hrep
        · exact Or.inr hrep
      · refine List.Chain'.infix ?_ (pyStripChar_inside '-' _)
        refine (chain'_subRunsAux _ false).imp ?_
        intro a b hab ⟨ha, hb⟩
        exact hab ⟨by simp [ha], by simp [hb]⟩
      · intro y hy hyc
        have := pyStripChar_head '-' _ y hy
        rw [hyc] at this
        simp at this
      · intro y hy hyc
        have := pyStripChar_last '-' _ y hy
        rw [hyc] at this
        simp at this

/-- The `unknown` constant is also in normal form (used to treat both
branches of `slugify` uniformly where convenient). -/
theorem slugGood_unknown : SlugGood (lit "unknown") := by
  refine ⟨by decide, by decide, ?_, by decide, by decide⟩
  show List.Chain' _ ['u', 'n', 'k', 'n', 'o', 'w', 'n']
  simp [List.chain'_cons, List.chain'_singleton]

/-- Whitespace is neither lowercase alphanumeric nor a dash. -/
theorem slug_chars_not_ws {c : Char} (h : isLowerAlnum c = true ∨ c = '-') :
    isWsChar c = false := by
  rcases h with h | h
  · simp [isLowerAlnum, isLowerChar, isDigitChar] at h
    simp [isWsChar]
    omega
  · subst h
    decide

/-- Slug characters are not uppercase. -/
theorem slug_chars_not_upper {c : Char} (h : isLowerAlnum c = true ∨ c = '-') :
    isUpperChar c = false := by
  rcases h with h | h
  · simp [isLowerAlnum, isLowerChar, isDigitChar] at h
    simp [isUpperChar]
    omega
  · subst h
    decide

/-- Applying `slugify` to a normal form returns it unchanged. -/
theorem slugify_eq_self {r : Str} (h : SlugGood r) : slugify r = r := by
  obtain ⟨hne, hchars, hadj, hhead, hlast⟩ := h
  have hnoWs : ∀ c ∈ r, isWsChar c = false := fun c hc => slug_chars_not_ws (hchars c hc)
  have hnoUp : ∀ c ∈ r, isUpperChar c = false := fun c hc => slug_chars_not_upper (hchars c hc)
  unfold slugify
  rw [if_neg (by simpa using hne)]
  simp only []
  rw [pyStrip_eq_self hnoWs, pyLower_eq_self hnoUp]
  rw [show subRuns (fun c => !(isLowerAlnum c)) '-' r = r from
    subRunsAux_eq_self
      (fun c hc => by
        rcases hchars c hc with h | h
        · exact Or.inl (by simp [h])
        · exact Or.inr h)
      (chain'_mono_mem hadj (fun a b ha hb hr => by
        intro ⟨hpa, hpb⟩
        refine hr ⟨?_, ?_⟩
        · rcases hchars a ha with h | h
          · exact absurd hpa (by simp [h])
          · exact h
        · rcases hchars b hb with h | h
          · exact absurd hpb (by simp [h])
          · exact h))]
  rw [show subRuns (· == '-') '-' r = r from
    subRunsAux_eq_self
      (fun c _ => by
        cases hc : (c == '-') with
        | false => exact Or.inl rfl
        | true => exact Or.inr (by simpa using hc))
      (hadj.imp (fun a b hab => by
        intro ⟨hpa, hpb⟩
        exact hab ⟨by simpa using hpa, by simpa using hpb⟩))]
  rw [pyStripChar_eq_self
    (fun y hy => by
      cases hc : (y == '-') with
      | false => rfl
      | true => exact absurd (by simpa using hc) (hhead y hy))
    (fun y hy => by
      cases hc : (y == '-') with
      | false => rfl
      | true => exact absurd (by simpa using hc) (hlast y hy))]
  rw [if_neg (by simpa using hne)]

/-- Idempotence of `slugify`. -/
theorem slugify_idem (s : Str) : slugify (slugify s) = slugify s := by
  rcases slugify_good s with h | h
  · rw [h]
    decide
  · exact slugify_eq_self h

/-- Word characters are not whitespace. -/
theorem wordChar_not_ws {c : Char} (h : isWordChar c = true) : isWsChar c = false := by
  simp [isWordChar, isAlphaChar, isLowerChar, isUpperChar, isDigitChar] at h
  simp [isWsChar]
  omega

/-- Word characters are not dashes. -/
theorem wordChar_not_dash {c : Char} (h : isWordChar c = true) : (c == '-') = false := by
  cases hc : (c == '-') with
  | false => rfl
  | true =>
    have : c = '-' := by simpa using hc
    subst this
    exact absurd h (by decide)

/-- Normal form produced by `_generate_hardware_id`: non-uppercase word
characters with isolated dashes, neither leading nor trailing. -/
def GhidGood (r : Str) : Prop :=
  (∀ c ∈ r, (isWordChar c = true ∧ isUpperChar c = false) ∨ c = '-') ∧
  List.Chain' (fun a b => ¬(a = '-' ∧ b = '-')) r ∧
  (∀ y ∈ r.head?, y ≠ '-') ∧ (∀ y ∈ r.reverse.head?, y ≠ '-')

/-- Every `_generate_hardware_id` output is in normal form. -/
theorem generateHardwareId_good (name : Str) : GhidGood (generateHardwareId name) := by
  unfold generateHardwareId
  simp only []
  refine ⟨?_, ?_, ?_, ?_⟩
  · intro ch hc
    have hc2 := (pyStripChar_inside '-' _).subset hc
    rcases mem_subRunsAux hc2 with ⟨hp, hcd⟩ | hrep
    · rcases List.mem_filter.mp hcd with ⟨hcl, hkeep⟩
      refine Or.inl ⟨?_, mem_pyLower_not_upper hcl⟩
      simp only [Bool.not_eq_true'] at hkeep
      simp only [Bool.or_eq_false_iff] at hp
      rcases hkeep2 : isWordChar ch with _ | _
      · exfalso
        simp [hkeep2, hp.1, wordChar_not_ws] at hkeep
        rw [hp.2] at hkeep
        simp [hp.1] at hkeep
      · rfl
    · exact Or.inr hrep
  · refine List.Chain'.infix ?_ (pyStripChar_inside '-' _)
    refine (chain'_subRunsAux _ false).imp ?_
    intro a b hab ⟨ha, hb⟩
    exact hab ⟨by simp [ha], by simp [hb]⟩
  · intro y hy hyc
    have := pyStripChar_head '-' _ y hy
    rw [hyc] at this
    simp at this
  · intro y hy hyc
    have := pyStripChar_last '-' _ y hy
    rw [hyc] at this
    simp at this

/-- Applying `_generate_hardware_id` to a normal form returns it
unchanged. -/
theorem generateHardwareId_eq_self {r : Str} (h : GhidGood r) :
    generateHardwareId r = r := by
  obtain ⟨hchars, hadj, hhead, hlast⟩ := h
  have hnoUp : ∀ c ∈ r, isUpperChar c = false := by
    intro c hc
    rcases hchars c hc with ⟨_, h2⟩ | h2
    · exact h2
    · subst h2
      decide
  unfold generateHardwareId
  simp only []
  rw [pyLower_eq_self hnoUp]
  rw [show delChars (fun c => !(isWordChar c || isWsChar c || c == '-')) r = r from
    List.filter_eq_self.mpr (fun c hc => by
      rcases hchars c hc with ⟨hw, _⟩ | hd
      · simp [hw]
      · subst hd
        decide)]
  rw [show subRuns (fun c => c == '-' || isWsChar c) '-' r = r from
    subRunsAux_eq_self
      (fun c hc => by
        rcases hchars c hc with ⟨hw, _⟩ | hd
        · exact Or.inl (by simp [wordChar_not_dash hw, wordChar_not_ws hw])
        · exact Or.inr hd)
      (chain'_mono_mem hadj (fun a b ha hb hr => by
        intro ⟨hpa, hpb⟩
        refine hr ⟨?_, ?_⟩
        · rcases hchars a ha with ⟨hw, _⟩ | hd
          · exact absurd hpa (by simp [wordChar_not_dash hw, wordChar_not_ws hw])
          · exact hd
        · rcases hchars b hb with ⟨hw, _⟩ | hd
          · exact absurd hpb (by simp [wordChar_not_dash hw, wordChar_not_ws hw])
          · exact hd))]
  exact pyStripChar_eq_self
    (fun y hy => by
      cases hc : (y == '-') with
      | false => rfl
      | true => exact absurd (by simpa using hc) (hhead y hy))
    (fun y hy => by
      cases hc : (y == '-') with
      | false => rfl
      | true => exact absurd (by simpa using hc) (hlast y hy))

/-- Idempotence of `_generate_hardware_id`. -/
theorem generateHardwareId_idem (s : Str) :
    generateHardwareId (generateHardwareId s) = generateHardwareId s :=
  generateHardwareId_eq_self (generateHardwareId_good s)

/-! ## C3 -/

/-- C3 counterexample: the claim says the slug function maps the empty
string to the literal `unknown`, but `_generate_hardware_id` (one of its two
cited implementations) maps the empty string to the empty string. -/
theorem c3_slug_counterexample :
    generateHardwareId [] = [] ∧ ([] : Str) ≠ lit "unknown" := ⟨rfl, by decide⟩

/-- C3 (amended): both slug functions are total and idempotent; `slugify`
maps the empty string (and any string whose normalization leaves nothing) to
`unknown`, while `_generate_hardware_id` maps the empty string to the empty
string. -/
theorem c3_slug_total_idempotent :
    (∀ s : Str, slugify (slugify s) = slugify s) ∧
    slugify [] = lit "unknown" ∧
    slugify (lit "!!!") = lit "unknown" ∧
    (∀ s : Str, generateHardwareId (generateHardwareId s) = generateHardwareId s) ∧
    generateHardwareId [] = [] :=
  ⟨slugify_idem, rfl, by decide, generateHardwareId_idem, rfl⟩

/-! ## C5: symmetry of the GPU name matcher

The comma-splitting wrapper `_gpu_names_match` splits only its first
argument, so it is not symmetric.  The underlying single-name matcher
`_gpu_names_match_single` is symmetric for every pair of strings; its three
fuzzy branches need a substring analysis of the concatenated pair. -/

/-- `isSub` is the substring (contiguous-infix) relation. -/
theorem isSub_iff {n h : Str} : isSub n h = true ↔ n <:+: h := by
  induction h with
  | nil => simp [isSub, List.isPrefixOf_iff_prefix]
  | cons c rest ih =>
    rw [isSub]
    simp only [Bool.or_eq_true, List.isPrefixOf_iff_prefix, ih, List.infix_cons_iff]

/-- A substring of a concatenation lies in the left part, in the right part,
or crosses the border, split by some interior index `k`. -/
theorem infix_append_cases {p x y : Str} (h : p <:+: x ++ y) :
    p <:+: x ∨ p <:+: y ∨
      ∃ k, 0 < k ∧ k < p.length ∧ p.take k <:+ x ∧ p.drop k <+: y := by
  obtain ⟨s, t, hst⟩ := h
  rcases List.append_eq_append_iff.mp hst with ⟨u, hu1, _⟩ | ⟨v, hv1, hv2⟩
  · exact Or.inl ⟨s, u, hu1.symm⟩
  · rcases List.append_eq_append_iff.mp hv1 with ⟨w, hw1, hw2⟩ | ⟨z, hz1, hz2⟩
    · rcases eq_or_ne w [] with rfl | hw
      · exact Or.inr (Or.inl ⟨[], t, by simp [hw2, ← hv2]⟩)
      · rcases eq_or_ne v [] with rfl | hv
        · exact Or.inl ⟨s, [], by simp [hw2, ← hw1]⟩
        · refine Or.inr (Or.inr ⟨w.length, List.length_pos.mpr hw, ?_, ?_, ?_⟩)
          · rw [hw2, List.length_append]
            have := List.length_pos.mpr hv
            omega
          · rw [hw2, List.take_left]
            exact ⟨s, hw1.symm⟩
          · rw [hw2, List.drop_left]
            exact ⟨t, hv2.symm⟩
    · exact Or.inr (Or.inl ⟨z, t, by rw [← hz2]; exact hv2.symm⟩)

/-- A set-intersection-nonempty test is symmetric. -/
theorem setInterNonempty_swap {a b : List Str} (h : setInterNonempty a b = true) :
    setInterNonempty b a = true := by
  unfold setInterNonempty at h ⊢
  rw [List.any_eq_true] at h ⊢
  obtain ⟨x, hx, hc⟩ := h
  exact ⟨x, List.elem_iff.mp hc, List.elem_iff.mpr hx⟩

/-- `any` over a concatenation does not depend on the order of the parts. -/
theorem any_append_swap {p : Char → Bool} {a b : Str} (h : (a ++ b).any p = true) :
    (b ++ a).any p = true := by
  rw [List.any_append, Bool.or_eq_true] at h
  rcases h with h1 | h1 <;> simp [h1]

/-- A successful NVIDIA-pattern match begins with one of the two literals. -/
theorem nvMatchAt_brand {s : Str} {k : ℕ} (h : nvMatchAt s = some k) :
    (lit "rtx") <+: s ∨ (lit "gtx") <+: s := by
  unfold nvMatchAt at h
  split at h
  · rename_i hc
    rw [Bool.or_eq_true] at hc
    rcases hc with hc1 | hc1
    · exact Or.inl (List.isPrefixOf_iff_prefix.mp hc1)
    · exact Or.inr (List.isPrefixOf_iff_prefix.mp hc1)
  · exact absurd h (by simp)

/-- Every string produced by the NVIDIA-model scan witnesses an `rtx` or
`gtx` occurrence in the scanned string. -/
theorem nvScan_brand {fuel : ℕ} : ∀ {s : Str} {prevW : Bool} {m : Str},
    m ∈ nvScan fuel s prevW → (lit "rtx") <:+: s ∨ (lit "gtx") <:+: s := by
  induction fuel with
  | zero => intro s prevW m h; simp [nvScan] at h
  | succ n ih =>
    intro s prevW m h
    cases s with
    | nil => simp [nvScan] at h
    | cons c rest =>
      rw [nvScan] at h
      rcases hm : (if prevW then none else nvMatchAt (c :: rest)) with _ | k
      · simp only [hm] at h
        rcases ih h with h1 | h1
        · exact Or.inl (h1.trans (List.suffix_cons c rest).isInfix)
        · exact Or.inr (h1.trans (List.suffix_cons c rest).isInfix)
      · simp only [hm] at h
        have hk : nvMatchAt (c :: rest) = some k := by
          cases prevW
          · simpa using hm
          · simp at hm
        rcases List.mem_cons.mp h with h1 | h1
        · rcases nvMatchAt_brand hk with h2 | h2
          · exact Or.inl h2.isInfix
          · exact Or.inr h2.isInfix
        · rcases ih h1 with h2 | h2
          · exact Or.inl (h2.trans (List.drop_suffix k (c :: rest)).isInfix)
          · exact Or.inr (h2.trans (List.drop_suffix k (c :: rest)).isInfix)

/-- An occurrence inside a string extends to any concatenation having that
string on the right. -/
theorem isSub_extend_right {n a : Str} (h : n <:+: a) (b : Str) :
    isSub n (b ++ a) = true :=
  isSub_iff.mpr (h.trans (List.suffix_append b a).isInfix)

/-- A nonempty prefix pins down the head of the larger string. -/
theorem prefix_head {p a : Str} (h : p <+: a) (hp : p ≠ []) : a.head? = p.head? := by
  obtain ⟨t, rfl⟩ := h
  cases p with
  | nil => exact absurd rfl hp
  | cons c cs => rfl

/-- A nonempty suffix pins down the last element of the larger string. -/
theorem suffix_getLast {p a : Str} (h : p <:+ a) (hp : p ≠ []) :
    a.getLast? = p.getLast? := by
  obtain ⟨t, rfl⟩ := h
  rw [List.getLast?_append]
  cases hq : p.getLast? with
  | none => exact absurd (List.getLast?_eq_none_iff.mp hq) hp
  | some v => rfl

/-- When one side of a concatenation is one of the generic Intel patterns,
an `intel` occurrence in the concatenation survives swapping the sides: the
patterns all end in `s` and start with `g`, `i`, `h` or `u`, so no strict
border-crossing occurrence exists. -/
theorem intel_in_swap {x y : Str}
    (hmem : x ∈ genericIntelPatterns ∨ y ∈ genericIntelPatterns)
    (hi : (lit "intel") <:+: x ++ y) : (lit "intel") <:+: y ++ x := by
  rcases infix_append_cases hi with h1 | h1 | ⟨k, hk0, hkl, hsuf, hpre⟩
  · exact h1.trans (List.suffix_append y x).isInfix
  · exact h1.trans (List.prefix_append y x).isInfix
  · exfalso
    have h5 : (lit "intel").length = 5 := by decide
    have hk5 : k < 5 := by omega
    rcases hmem with hx | hy
    · have hne : (lit "intel").take k ≠ [] := by
        intro hc
        rcases List.take_eq_nil_iff.mp hc with h | h
        · omega
        · exact absurd h (by decide)
      have hlast := suffix_getLast hsuf hne
      unfold genericIntelPatterns at hx
      simp only [List.mem_cons, List.not_mem_nil, or_false] at hx
      rcases hx with rfl | rfl | rfl | rfl <;>
        (interval_cases k <;> exact absurd hlast (by decide))
    · have hne : (lit "intel").drop k ≠ [] := by
        intro hc
        have := List.drop_eq_nil_iff.mp hc
        omega
      have hhead := prefix_head hpre hne
      unfold genericIntelPatterns at hy
      simp only [List.mem_cons, List.not_mem_nil, or_false] at hy
      rcases hy with rfl | rfl | rfl | rfl <;>
        (interval_cases k <;> exact absurd hhead (by decide))

/-- One direction of the symmetry of `_fuzzy_gpu_match`. -/
theorem fuzzyGpuMatch_imp {a b : Str} (h : fuzzyGpuMatch a b = true) :
    fuzzyGpuMatch b a = true := by
  unfold fuzzyGpuMatch at h ⊢
  simp only [Bool.or_eq_true, Bool.and_eq_true, decide_eq_true_eq] at h ⊢
  rcases h with (hR | hI) | hN
  · refine Or.inl (Or.inl ⟨⟨hR.1.2, hR.1.1⟩, ?_⟩)
    rcases hR.2 with (h1 | h2) | h3
    · exact Or.inl (Or.inr h1)
    · exact Or.inl (Or.inl h2)
    · exact Or.inr ⟨any_append_swap h3.1, setInterNonempty_swap h3.2⟩
  · obtain ⟨⟨⟨g1, g2⟩, gI⟩, hdisj⟩ := hI
    have hmem : a ∈ genericIntelPatterns ∨ b ∈ genericIntelPatterns := by
      rcases hdisj with h1 | h1
      · exact Or.inl (List.elem_iff.mp h1.1)
      · exact Or.inr (List.elem_iff.mp h1.1)
    have gI2 : isSub (lit "intel") (b ++ a) = true :=
      isSub_iff.mpr (intel_in_swap hmem (isSub_iff.mp gI))
    refine Or.inl (Or.inr ⟨⟨⟨g2, g1⟩, gI2⟩, ?_⟩)
    rcases hdisj with h1 | h1
    · exact Or.inr h1
    · exact Or.inl h1
  · obtain ⟨hguard, hinter⟩ := hN
    obtain ⟨m, hm, _⟩ := List.any_eq_true.mp hinter
    have hm2 : m ∈ nvScan a.length a false := hm
    refine Or.inr ⟨?_, setInterNonempty_swap hinter⟩
    rcases nvScan_brand hm2 with hbr | hbr
    · exact Or.inl (Or.inl (isSub_extend_right hbr b))
    · exact Or.inl (Or.inr (isSub_extend_right hbr b))

/-- `_fuzzy_gpu_match` is symmetric. -/
theorem fuzzyGpuMatch_swap (a b : Str) : fuzzyGpuMatch a b = fuzzyGpuMatch b a := by
  cases h1 : fuzzyGpuMatch a b <;> cases h2 : fuzzyGpuMatch b a
  · rfl
  · exact absurd (fuzzyGpuMatch_imp h2) (by simp [h1])
  · exact absurd (fuzzyGpuMatch_imp h1) (by simp [h2])
  · rfl

/-- The equality-or-fuzzy tail of the single-name matcher is symmetric. -/
theorem matchTail_swap (x y : Str) :
    (if x == y then true else fuzzyGpuMatch x y) =
      (if y == x then true else fuzzyGpuMatch y x) := by
  cases heq : (x == y) with
  | false =>
    have h2 : (y == x) = false := by
      rw [beq_eq_false_iff_ne] at heq ⊢
      exact fun hc => heq hc.symm
    rw [h2]
    exact fuzzyGpuMatch_swap x y
  | true =>
    have h2 : (y == x) = true := by
      rw [beq_iff_eq] at heq ⊢
      exact heq.symm
    rw [h2]
    rfl

set_option maxHeartbeats 1600000 in
/-- C5 counterexample: `_gpu_names_match` splits comma-joined composites
only in its *first* argument, so the pair
(`"RX 580, RX 570"`, `"RX 580"`) matches in one order and not in the
other; the claimed symmetry fails for comma-joined composite names. -/
theorem c5_matcher_symmetry_counterexample :
    gpuNamesMatch (lit "RX 580, RX 570") (lit "RX 580") = true ∧
    gpuNamesMatch (lit "RX 580") (lit "RX 580, RX 570") = false := by
  constructor <;> decide

/-- C5 (amended): the single-name matcher `_gpu_names_match_single` — and
with it `_gpu_names_match` on comma-free first arguments — is symmetric for
every pair of strings: emptiness, normalization, the equality test and each
fuzzy vendor branch are order-independent. -/
theorem c5_matcher_symmetry (a b : Str) :
    gpuNamesMatchSingle a b = gpuNamesMatchSingle b a := by
  unfold gpuNamesMatchSingle
  rw [Bool.or_comm a.isEmpty b.isEmpty]
  cases hc : (b.isEmpty || a.isEmpty)
  · have hnc : ¬(false = true) := by decide
    rw [if_neg hnc, if_neg hnc]
    exact matchTail_swap (normalizeGpuName a) (normalizeGpuName b)
  · have hpc : (true = true) := rfl
    rw [if_pos hpc, if_pos hpc]

end WeirdBench
